import Mathlib

/-!
Shallow embedding of the graph-construction core of
`dali/python/nvidia/dali/ops/__init__.py`: operator-instance construction and
multi-input-set expansion.  Pure Python functions become Lean functions; the
global node counter, the pipeline sink list and the warning channel become an
explicit `GraphState` threaded through the definitions; fallible code returns
`Except DaliError`.  External collaborators that live outside the embedded file
(the schema object, `nvidia.dali.types.Constant`, the scalar-value predicate)
are modelled from the specification and marked as such in their doc comments.
-/

namespace DaliOps

/-- Embeds `DataNode` as far as this module observes it: a symbolic handle with
a `name`, a `device` string and a back-reference to the producing node,
represented by that node's numeric id. -/
structure DataHandle where
  name : String
  device : String
  producer : Nat
  deriving DecidableEq, Repr, Inhabited

/-- Atomic Python values that can appear as an element of a positional-input
list: data handles, `ScalarConstant` wrappers, booleans, recognized scalar
numbers, strings, and a catch-all for any other object. -/
inductive PyAtom where
  | handle (h : DataHandle)
  | scalarConst (v : Int)
  | pybool (b : Bool)
  | scalar (v : Int)
  | str (s : String)
  | other
  deriving DecidableEq, Repr, Inhabited

/-- Python values as this module inspects them: `None`, an atom, a list of
atoms or a tuple of atoms.  One level of nesting is enough for every code path
the embedded functions distinguish. -/
inductive PyVal where
  | vNone
  | atom (a : PyAtom)
  | pylist (xs : List PyAtom)
  | pytuple (xs : List PyAtom)
  deriving DecidableEq, Repr, Inhabited

/-- Python `type(x).__name__` for an atom, used only inside error messages. -/
def pyAtomTypeName : PyAtom → String
  | .handle _ => "DataNode"
  | .scalarConst _ => "ScalarConstant"
  | .pybool _ => "bool"
  | .scalar _ => "int"
  | .str _ => "str"
  | .other => "object"

/-- Python `type(x).__name__` for a value, used only inside error messages. -/
def pyTypeName : PyVal → String
  | .vNone => "NoneType"
  | .atom a => pyAtomTypeName a
  | .pylist _ => "list"
  | .pytuple _ => "tuple"

/-- Python truthiness of a value (`bool(x)`); `ScalarConstant`, `DataNode` and
unknown objects use the default object truthiness. -/
def pyTruthy : PyVal → Bool
  | .vNone => false
  | .atom (.pybool b) => b
  | .atom (.scalar v) => v != 0
  | .atom (.str s) => s != ""
  | .atom _ => true
  | .pylist xs => !xs.isEmpty
  | .pytuple xs => !xs.isEmpty

/-- Lookup in an insertion-ordered Python dict modelled as an association
list. -/
def dictLookup : List (String × PyVal) → String → Option PyVal
  | [], _ => none
  | (k', v) :: rest, k => if k' = k then some v else dictLookup rest k

/-- Key-membership test of the modelled dict (`k in d`). -/
def dictContains (d : List (String × PyVal)) (k : String) : Bool :=
  d.any (fun kv => kv.1 = k)

/-- Assignment `d[k] = v` on the modelled dict: replaces in place when the key
exists, appends otherwise, as an insertion-ordered Python dict does. -/
def dictInsert (d : List (String × PyVal)) (k : String) (v : PyVal) :
    List (String × PyVal) :=
  if dictContains d k then d.map (fun kv => if kv.1 = k then (k, v) else kv)
  else d ++ [(k, v)]

/-- Deletion `del d[k]` on the modelled dict. -/
def dictErase (d : List (String × PyVal)) (k : String) : List (String × PyVal) :=
  d.filter (fun kv => kv.1 ≠ k)

/-- Errors raised by the embedded code, tagged with the Python exception class
and carrying the formatted message. -/
inductive DaliError where
  | typeError (msg : String)
  | valueError (msg : String)
  | pipelineRequired (msg : String)
  deriving DecidableEq, Repr

/-- Append-only backend spec object (`_b.OpSpec`): the embedding records the
sequences of `AddArg`, `AddArgEmptyList`, `AddInput`, `AddArgumentInput` and
`AddOutput` calls. -/
structure OpSpec where
  args : List (String × PyVal) := []
  emptyListArgs : List String := []
  inputs : List (String × String) := []
  argumentInputs : List (String × String) := []
  outputs : List (String × String) := []
  deriving DecidableEq, Repr, Inhabited

/-- Embeds `spec.AddArg(key, value)`; `_type_convert_value` is external and is
modelled as the identity on the stored value. -/
def OpSpec.AddArg (spec : OpSpec) (key : String) (value : PyVal) : OpSpec :=
  { spec with args := spec.args ++ [(key, value)] }

/-- Embeds `spec.AddArgEmptyList(key, element_type)`; the element type is
external metadata and is not recorded. -/
def OpSpec.AddArgEmptyList (spec : OpSpec) (key : String) : OpSpec :=
  { spec with emptyListArgs := spec.emptyListArgs ++ [key] }

/-- Embeds `spec.AddInput(name, device)`. -/
def OpSpec.AddInput (spec : OpSpec) (name device : String) : OpSpec :=
  { spec with inputs := spec.inputs ++ [(name, device)] }

/-- Embeds `spec.AddArgumentInput(arg_name, input_name)`. -/
def OpSpec.AddArgumentInput (spec : OpSpec) (argName inputName : String) : OpSpec :=
  { spec with argumentInputs := spec.argumentInputs ++ [(argName, inputName)] }

/-- Embeds `spec.AddOutput(name, device)`. -/
def OpSpec.AddOutput (spec : OpSpec) (name device : String) : OpSpec :=
  { spec with outputs := spec.outputs ++ [(name, device)] }

/-- Deprecation metadata for one argument name
(`schema.DeprecatedArgMeta(name)`): the Python dict with keys `renamed_to`
(empty string when absent), `removed` and `msg`. -/
structure DeprecatedArgMeta where
  renamed_to : String := ""
  removed : Bool := false
  msg : String := ""
  deriving Repr, Inhabited

/-- Read-only view of the external per-operator schema, holding exactly the
queries the embedded code performs on it. -/
structure Schema where
  minNumInput : Nat := 0
  maxNumInput : Nat := 0
  isTensorArgument : String → Bool := fun _ => true
  argumentTypeName : String → String := fun _ => "value"
  calculateOutputs : OpSpec → Nat := fun _ => 1
  calculateAdditionalOutputs : OpSpec → Nat := fun _ => 0
  isNoPrune : Bool := false
  isDeprecated : Bool := false
  deprecatedInFavorOf : String := ""
  deprecationMessage : String := ""
  isDeprecatedArg : String → Bool := fun _ => false
  deprecatedArgMeta : String → DeprecatedArgMeta := fun _ => {}
  getInputDevice : Nat → Option String := fun _ => none

/-- Shared mutable context of graph construction: the global `_OpCounter`
value, the current pipeline's sink list, and the advisory warning channel. -/
structure GraphState where
  counter : Nat := 0
  sinks : List DataHandle := []
  warnings : List String := []
  deriving DecidableEq, Repr, Inhabited

/-- Embeds `isinstance(x, arg_input_type)` of `_separate_kwargs` in pipeline
mode, where the argument-input type is `DataNode`. -/
def is_arg_input_type : PyVal → Bool
  | .atom (.handle _) => true
  | _ => false

/-- Modelled from the spec: `nvidia.dali.types._is_scalar_value` is outside the
embedded file; per the specification it recognizes plain scalar values
(booleans and numbers), and nothing else that can reach it. -/
def is_scalar_value : PyVal → Bool
  | .atom (.pybool _) => true
  | .atom (.scalar _) => true
  | _ => false

/-- Embeds `isinstance(value, (str, list, tuple, ScalarConstant))`. -/
def is_str_list_tuple_sc : PyVal → Bool
  | .atom (.str _) => true
  | .atom (.scalarConst _) => true
  | .pylist _ => true
  | .pytuple _ => true
  | _ => false

/-- Embeds the `is_call_arg` classifier inside `_separate_kwargs`. -/
def is_call_arg (name : String) (value : PyVal) : Bool :=
  if name = "device" then false
  else if name = "ndim" then false
  else if name = "name" || is_arg_input_type value then true
  else if is_str_list_tuple_sc value then false
  else !is_scalar_value value

/-- Embeds `to_scalar` inside `_separate_kwargs`: a `ScalarConstant` wrapper is
unwrapped to its raw value, anything else passes through. -/
def to_scalar : PyVal → PyVal
  | .atom (.scalarConst v) => .atom (.scalar v)
  | v => v

/-- Embeds `_separate_kwargs`: splits keyword arguments into the pair of
construction-style and call-style dicts, dropping `None` values and unwrapping
`ScalarConstant` wrappers on the construction side. -/
def separate_kwargs : List (String × PyVal) →
    List (String × PyVal) × List (String × PyVal)
  | [] => ([], [])
  | (k, v) :: rest =>
    let (initArgs, callArgs) := separate_kwargs rest
    if v = .vNone then (initArgs, callArgs)
    else if is_call_arg k v then (initArgs, (k, v) :: callArgs)
    else ((k, to_scalar v) :: initArgs, callArgs)

/-- Embeds `_add_spec_args`: each non-`None` argument is written to the spec,
an empty list or tuple through `AddArgEmptyList` and every other value through
`AddArg`. -/
def add_spec_args (spec : OpSpec) (kwargs : List (String × PyVal)) : OpSpec :=
  kwargs.foldl
    (fun spec kv =>
      match kv.2 with
      | .vNone => spec
      | .pylist [] => spec.AddArgEmptyList kv.1
      | .pytuple [] => spec.AddArgEmptyList kv.1
      | v => spec.AddArg kv.1 v)
    spec

/-- Atoms that survive `_preprocess_inputs` inside an input set: handles and
`ScalarConstant` wrappers. -/
def good_atom : PyAtom → Bool
  | .handle _ => true
  | .scalarConst _ => true
  | _ => false

/-- Handles appended as argument inputs by the merged-argument loop of
`_OperatorInstance.__init__` when every looked-up value is a handle: the
values of the given keys in order, skipping `name`. -/
def arg_input_handles (callArgs : List (String × PyVal)) (ks : List String) :
    List DataHandle :=
  ks.filterMap (fun k =>
    if k = "name" then none
    else match dictLookup callArgs k with
      | some (.atom (.handle h)) => some h
      | _ => none)

/-- Embeds `_check_arg_input`: the reserved key `name` is exempt; any other
argument name that the schema does not mark tensor-capable must not be supplied
as an argument input. -/
def check_arg_input (schema : Schema) (opName argName : String) :
    Except DaliError Unit :=
  if argName = "name" then .ok ()
  else if !schema.isTensorArgument argName then
    .error (.typeError ("The argument `" ++ argName ++ "` for operator `" ++
      opName ++ "` should not be a `DataNode` but a " ++
      schema.argumentTypeName argName))
  else .ok ()

/-- Embeds the deprecated-argument loop of `Operator.__init__`: iterate over
the construction-time argument names in order; a name flagged renamed moves its
value to the new name (raising when the new name is already present, checked
against the dict as mutated so far), a name flagged removed is deleted, and in
every deprecated case a warning message is accumulated. -/
def apply_deprecations (schema : Schema) (opTypeName : String) :
    List String → List (String × PyVal) → List String →
    Except DaliError (List (String × PyVal) × List String)
  | [], kwargs, warns => .ok (kwargs, warns)
  | argName :: rest, kwargs, warns =>
    if !schema.isDeprecatedArg argName then
      apply_deprecations schema opTypeName rest kwargs warns
    else
      let meta := schema.deprecatedArgMeta argName
      if meta.renamed_to ≠ "" then
        if dictContains kwargs meta.renamed_to then
          .error (.typeError ("Operator " ++ opTypeName ++ " got an unexpected'"
            ++ argName ++ "' deprecated argument when '" ++ meta.renamed_to ++
            "'was already provided"))
        else
          let moved :=
            dictErase
              (dictInsert kwargs meta.renamed_to
                ((dictLookup kwargs argName).getD .vNone))
              argName
          apply_deprecations schema opTypeName rest moved (warns ++ [meta.msg])
      else if meta.removed then
        apply_deprecations schema opTypeName rest (dictErase kwargs argName)
          (warns ++ [meta.msg])
      else
        apply_deprecations schema opTypeName rest kwargs (warns ++ [meta.msg])

/-- One instantiated operator object, as produced by `Operator.__init__` of
`python_op_factory`: the resolved device, the spec filled with the
construction-time scalar arguments, the bound call-style arguments
(`self._call_args`) and the resolved preserve flag. -/
structure Operator where
  opTypeName : String
  schema : Schema
  device : String := "cpu"
  spec : OpSpec := {}
  callArgs : List (String × PyVal) := []
  preserve : Bool := false

/-- Embeds the loop of `Operator.__init__` that validates every bound
call-style argument name with `_check_arg_input`. -/
def check_call_args (schema : Schema) (opName : String) :
    List (String × PyVal) → Except DaliError Unit
  | [] => .ok ()
  | (k, _) :: rest =>
    match check_arg_input schema opName k with
    | .error e => .error e
    | .ok _ => check_call_args schema opName rest

/-- Embeds `Operator.__init__` of `python_op_factory`: records the device,
separates the keyword arguments, validates the bound call-style names, extracts
`preserve`, applies deprecation remapping and stores the remaining
construction-time arguments in the spec.  Returns the operator together with
the emitted deprecation warnings. -/
def Operator.init (opTypeName : String) (schema : Schema) (device : String)
    (kwargs : List (String × PyVal)) :
    Except DaliError (Operator × List String) :=
  let spec := OpSpec.AddArg {} "device" (.atom (.str device))
  let (initKwargs, callArgs) := separate_kwargs kwargs
  match check_call_args schema opTypeName callArgs with
  | .error e => .error e
  | .ok _ =>
    let (preserveVal, initKwargs) :=
      match dictLookup initKwargs "preserve" with
      | some v => (v, dictErase initKwargs "preserve")
      | none => (.atom (.pybool false), initKwargs)
    let spec := spec.AddArg "preserve" preserveVal
    let preserve := pyTruthy preserveVal || schema.isNoPrune
    match apply_deprecations schema opTypeName (initKwargs.map Prod.fst)
        initKwargs [] with
    | .error e => .error e
    | .ok (initKwargs, warns) =>
      .ok ({ opTypeName, schema, device, spec := add_spec_args spec initKwargs,
             callArgs, preserve }, warns)

/-- Modelled from the spec: `nvidia.dali.types.Constant` and
`_instantiate_constant_node` are outside the embedded file; per §4.2 the
promoter wraps a literal as a constant-producing node on the given device and
returns its sole output handle.  The new node consumes one id from the global
counter and its handle is named like any generated node name. -/
def instantiate_constant_node (device : String) (st : GraphState) :
    DataHandle × GraphState :=
  let cid := st.counter
  (⟨"__Constant_" ++ toString cid, device, cid⟩, { st with counter := cid + 1 })

/-- Modelled from the spec: which values `nvidia.dali.types.Constant` can
represent as a supported element type (§4.2) — scalar literals and flat lists
or tuples of scalar literals; handles, strings, `None` and unknown objects are
not convertible. -/
def convertible_constant : PyVal → Bool
  | .atom (.scalar _) => true
  | .atom (.pybool _) => true
  | .atom (.scalarConst _) => true
  | .pylist xs => !xs.isEmpty && xs.all (fun a =>
      match a with
      | .scalar _ => true
      | .pybool _ => true
      | _ => false)
  | .pytuple xs => !xs.isEmpty && xs.all (fun a =>
      match a with
      | .scalar _ => true
      | .pybool _ => true
      | _ => false)
  | _ => false

/-- Promotion of a non-handle value to a constant node on `device`: `none`
when the conversion raises. -/
def try_constant (v : PyVal) (device : String) (st : GraphState) :
    Option (DataHandle × GraphState) :=
  if convertible_constant v then some (instantiate_constant_node device st)
  else none

/-- One node of the graph, as built by `_OperatorInstance`: its counter id, the
relation id, the resolved name, the ordered inputs (positional handles followed
by argument-input handles), the minted outputs, and the node's spec. -/
structure OpInstance where
  id : Nat
  relationId : Nat
  name : String
  inputs : List DataHandle
  outputs : List DataHandle
  spec : OpSpec
  deriving DecidableEq, Repr, Inhabited

/-- Embeds the positional-input rewrite at the top of
`_OperatorInstance.__init__`: every `ScalarConstant` element is replaced by a
fresh constant node on the default input device. -/
def convert_sc_inputs (device : String) :
    List PyAtom → GraphState → List PyAtom × GraphState
  | [], st => ([], st)
  | a :: rest, st =>
    let (a, st) :=
      match a with
      | .scalarConst _ =>
        let (h, st) := instantiate_constant_node device st
        (PyAtom.handle h, st)
      | a => (a, st)
    let (tail, st) := convert_sc_inputs device rest st
    (a :: tail, st)

/-- Embeds the call-argument merge of `_OperatorInstance.__init__`: starting
from a copy of the bound `_default_call_args`, each call-time pair with a
non-`None` value is added, raising when its name was already bound at
construction time. -/
def merge_call_args (defaults : List (String × PyVal)) :
    List (String × PyVal) → List (String × PyVal) →
    Except DaliError (List (String × PyVal))
  | acc, [] => .ok acc
  | acc, (k, v) :: rest =>
    if v = .vNone then merge_call_args defaults acc rest
    else if dictContains defaults k then
      .error (.valueError ("The argument `" ++ k ++
        "` was already specified in __init__."))
    else merge_call_args defaults (dictInsert acc k v) rest

/-- Embeds the positional-input loop of `_OperatorInstance.__init__`: every
input must be a `DataNode` by now, otherwise a `TypeError` is raised. -/
def collect_handles : List PyAtom → Except DaliError (List DataHandle)
  | [] => .ok []
  | .handle h :: rest =>
    match collect_handles rest with
    | .error e => .error e
    | .ok hs => .ok (h :: hs)
  | a :: _ =>
    .error (.typeError ("Expected inputs of type `DataNode`. Received input of type '"
      ++ pyAtomTypeName a ++ "'."))

/-- Message raised when an argument-input value is neither a handle nor
convertible to a constant node. -/
def arg_input_error_msg (k : String) (v : PyVal) : String :=
  "Expected inputs of type `DataNode` or convertible to constant nodes. Received input `"
  ++ k ++ "` of type '" ++ pyTypeName v ++ "'."

/-- Embeds the per-argument promotion step of the argument-input loop of
`_OperatorInstance.__init__` (a handle passes through, a `ScalarConstant`
becomes a constant node on `cpu`, any other value is converted to a constant
node on `cpu` or raises). -/
def promote_arg_input (k : String) (argInp : PyVal) (st : GraphState) :
    Except DaliError DataHandle × GraphState :=
  match argInp with
  | .atom (.handle h) => (.ok h, st)
  | .atom (.scalarConst _) =>
    let (h, st) := instantiate_constant_node "cpu" st
    (.ok h, st)
  | v =>
    match try_constant v "cpu" st with
    | some (h, st) => (.ok h, st)
    | none => (.error (.typeError (arg_input_error_msg k v)), st)

/-- Values on which the argument-input promotion raises: everything that is
neither a handle, nor a `ScalarConstant`, nor convertible to a constant. -/
def promote_fails : PyVal → Bool
  | .atom (.handle _) => false
  | .atom (.scalarConst _) => false
  | v => !convertible_constant v

/-- Embeds the argument-input loop of `_OperatorInstance.__init__`: iterate
over the merged call arguments in sorted name order, skipping `name` and `None`
values; each value is promoted to a handle, the name is checked tensor-capable
and the handle is recorded in the spec and appended to the node's input
list. -/
def process_arg_inputs (op : Operator) (callArgs : List (String × PyVal)) :
    List String → OpSpec → List DataHandle → GraphState →
    Except DaliError (OpSpec × List DataHandle) × GraphState
  | [], spec, acc, st => (.ok (spec, acc), st)
  | k :: rest, spec, acc, st =>
    if k = "name" then process_arg_inputs op callArgs rest spec acc st
    else
      match dictLookup callArgs k with
      | none => process_arg_inputs op callArgs rest spec acc st
      | some argInp =>
        if argInp = .vNone then process_arg_inputs op callArgs rest spec acc st
        else
          match promote_arg_input k argInp st with
          | (.error e, st) => (.error e, st)
          | (.ok h, st) =>
            match check_arg_input op.schema op.opTypeName k with
            | .error e => (.error e, st)
            | .ok _ =>
              process_arg_inputs op callArgs rest
                (spec.AddArgumentInput k h.name) (acc ++ [h]) st

/-- Warning message emitted by `_OperatorInstance.__init__` for a deprecated
operator; the external fn-style renaming `_op_name` is modelled as the
identity. -/
def op_deprecation_msg (op : Operator) : String :=
  let msg := "WARNING: `" ++ op.opTypeName ++ "` is now deprecated"
  let msg :=
    if op.schema.deprecatedInFavorOf ≠ "" then
      msg ++ ". Use `" ++ op.schema.deprecatedInFavorOf ++ "` instead."
    else msg
  if op.schema.deprecationMessage ≠ "" then
    msg ++ "\n" ++ op.schema.deprecationMessage
  else msg

/-- Lexicographic comparison of key names by code point, the order Python's
`sorted` uses on strings, written over character lists so that concrete calls
evaluate by kernel reduction. -/
def char_list_le : List Char → List Char → Bool
  | [], _ => true
  | _ :: _, [] => false
  | c1 :: r1, c2 :: r2 =>
    if c1 < c2 then true
    else if c2 < c1 then false
    else char_list_le r1 r2

/-- Key comparison used when sorting argument names. -/
def key_le (a b : String) : Bool := char_list_le a.toList b.toList

/-- Insertion of a key into an ascending list. -/
def insert_key (k : String) : List String → List String
  | [] => [k]
  | k2 :: rest => if key_le k k2 then k :: k2 :: rest else k2 :: insert_key k rest

/-- Ascending sort of argument names (Python `sorted`), written as a
structurally recursive insertion sort so that concrete calls evaluate by
kernel reduction. -/
def sorted_keys : List String → List String
  | [] => []
  | k :: rest => insert_key k (sorted_keys rest)

/-- Embeds `_OperatorInstance.__init__` (conditional-execution mode disabled):
allocates the node id, rewrites `ScalarConstant` positional inputs, separates
the call-time keyword arguments, merges them with the bound call arguments,
resolves the node name, records positional inputs and argument inputs, and
emits the deprecated-operator warning. -/
def build_instance (op : Operator) (inputs : List PyAtom)
    (kwargs : List (String × PyVal)) (st : GraphState) :
    Except DaliError OpInstance × GraphState :=
  let instId := st.counter
  let st := { st with counter := instId + 1 }
  let defaultInputDevice := if op.device = "gpu" then "gpu" else "cpu"
  let (inputs, st) := convert_sc_inputs defaultInputDevice inputs st
  let (specArgs, callKwargs) := separate_kwargs kwargs
  let spec := add_spec_args op.spec specArgs
  match merge_call_args op.callArgs op.callArgs callKwargs with
  | .error e => (.error e, st)
  | .ok callArgs =>
    let name :=
      match dictLookup callArgs "name" with
      | some (.atom (.str s)) => s
      | _ => "__" ++ op.opTypeName ++ "_" ++ toString instId
    match collect_handles inputs with
    | .error e => (.error e, st)
    | .ok hs =>
      let spec := hs.foldl (fun sp h => sp.AddInput h.name h.device) spec
      let sortedKeys := sorted_keys (callArgs.map Prod.fst)
      match process_arg_inputs op callArgs sortedKeys spec [] st with
      | (.error e, st) => (.error e, st)
      | (.ok (spec, argHandles), st) =>
        let st :=
          if op.schema.isDeprecated then
            { st with warnings := st.warnings ++ [op_deprecation_msg op] }
          else st
        (.ok { id := instId, relationId := instId, name,
               inputs := hs ++ argHandles, outputs := [], spec }, st)

/-- Output device of a node (`generate_outputs`): `gpu` for a `gpu` or `mixed`
operator, `cpu` otherwise. -/
def output_device (op : Operator) : String :=
  if op.device = "gpu" || op.device = "mixed" then "gpu" else "cpu"

/-- Output count of a node: `CalculateOutputs` plus
`CalculateAdditionalOutputs` over the node's spec. -/
def num_output (op : Operator) (inst : OpInstance) : Nat :=
  op.schema.calculateOutputs inst.spec +
    op.schema.calculateAdditionalOutputs inst.spec

/-- Name of the synthetic sink handle registered for a zero-output preserved
node. -/
def sink_name (op : Operator) (inst : OpInstance) : String :=
  op.opTypeName ++ "_id_" ++ toString inst.id ++ "_sink"

/-- Per-output step of the minting loop of `generate_outputs`. -/
def mint_step (op : Operator) (numOutput : Nat) :
    OpInstance × GraphState → Nat → OpInstance × GraphState :=
  fun acc i =>
    let (inst, st) := acc
    let tName := inst.name ++
      (if numOutput > 1 then "[" ++ toString i ++ "]" else "")
    let t : DataHandle := ⟨tName, output_device op, inst.id⟩
    let inst := { inst with
      spec := inst.spec.AddOutput t.name t.device
      outputs := inst.outputs ++ [t] }
    let st := if op.preserve then { st with sinks := st.sinks ++ [t] } else st
    (inst, st)

/-- Embeds `_OperatorInstance.generate_outputs`: a preserved operator without
an active pipeline raises; otherwise the output count is computed from the
schema, a zero-output preserved node registers one synthetic sink handle, and
any other node mints its outputs (suffixed `[i]` when there are several),
registering each as a sink when the operator is preserved. -/
def generate_outputs (op : Operator) (pipelineActive : Bool)
    (inst : OpInstance) (st : GraphState) :
    Except DaliError OpInstance × GraphState :=
  if !pipelineActive && op.preserve then
    (.error (.pipelineRequired "Operators with side-effects "), st)
  else
    let numOutput := num_output op inst
    if numOutput = 0 && op.preserve then
      (.ok inst, { st with
        sinks := st.sinks ++ [⟨sink_name op inst, output_device op, inst.id⟩] })
    else
      let (inst, st) := (List.range numOutput).foldl (mint_step op numOutput)
        (inst, st)
      (.ok inst, st)

/-- Handles minted by the output loop for a node with `n` outputs. -/
def minted_outputs (op : Operator) (inst : OpInstance) (n : Nat) :
    List DataHandle :=
  (List.range n).map (fun i =>
    ⟨inst.name ++ (if n > 1 then "[" ++ toString i ++ "]" else ""),
     output_device op, inst.id⟩)

/-- Embeds `is_input` inside `_preprocess_inputs`: a positional value counts as
a data input exactly when it is a `DataNode`, a `ScalarConstant`, or a list
containing at least one `DataNode` in which every element is a `DataNode` or a
`ScalarConstant`. -/
def is_input : PyVal → Bool
  | .atom (.handle _) => true
  | .atom (.scalarConst _) => true
  | .pylist xs =>
    xs.any (fun y => match y with | .handle _ => true | _ => false) &&
    xs.all (fun y => match y with
      | .handle _ => true
      | .scalarConst _ => true
      | _ => false)
  | _ => false

/-- Resolved device of positional input `idx` in `_preprocess_inputs`: the
schema's declared input device when present and non-empty (Python `or`
treats an empty string as absent), the default input device derived from the
operator's device otherwise. -/
def resolved_input_device (schema : Schema) (idx : Nat) (device : String) :
    String :=
  let defaultInputDevice := if device = "gpu" then "gpu" else "cpu"
  match schema.getInputDevice idx with
  | some d => if d = "" then defaultInputDevice else d
  | none => defaultInputDevice

/-- Error message of `_preprocess_inputs` when converting a non-input
positional value to a constant node fails. -/
def preprocess_error_msg (opName : String) (idx : Nat) (v : PyVal) : String :=
  "when calling operator " ++ opName ++ ":\nInput " ++ toString idx ++
  " is neither a DALI `DataNode` nor a list of data nodes but `" ++
  pyTypeName v ++ "`.\nAttempt to convert it to a constant node failed."

/-- Embeds `_preprocess_inputs` (with a schema supplied, as `Operator.__call__`
does): every positional value that is not a data input is converted to one
constant node on the input's resolved device — the schema's declared input
device when present and non-empty, the operator's default input device
otherwise — or the call fails.  The external promotion returning a
`ScalarConstant` that is then instantiated is folded into the modelled
promoter, which returns the constant node's handle directly. -/
def preprocess_inputs (opName : String) (device : String) (schema : Schema) :
    List PyVal → Nat → GraphState → Except DaliError (List PyVal) × GraphState
  | [], _, st => (.ok [], st)
  | inp :: rest, idx, st =>
    let continue_with := fun (inp : PyVal) (st : GraphState) =>
      match preprocess_inputs opName device schema rest (idx + 1) st with
      | (.error e, st) => (.error e, st)
      | (.ok tail, st) => (.ok (inp :: tail), st)
    if is_input inp then continue_with inp st
    else
      match try_constant inp (resolved_input_device schema idx device) st with
      | some (h, st) => continue_with (.atom (.handle h)) st
      | none => (.error (.typeError (preprocess_error_msg opName idx inp)), st)

/-- Embeds `Operator._detect_multiple_input_sets`: any positional input that is
a Python list signals multiple input sets. -/
def detect_multiple_input_sets (inputs : List PyVal) : Bool :=
  inputs.any (fun i => match i with | .pylist _ => true | _ => false)

/-- Embeds `Operator._safe_len`. -/
def safe_len : PyVal → Nat
  | .pylist xs => xs.length
  | _ => 1

/-- Embeds `Operator._check_common_length`: the common batch length is the
maximum `_safe_len` over all inputs, and every list whose length differs from
it raises. -/
def check_common_length (opName : String) (inputs : List PyVal) :
    Except DaliError Nat :=
  let argListLen := (inputs.map safe_len).foldl max 0
  if inputs.any (fun i => match i with
      | .pylist xs => xs.length != argListLen
      | _ => false) then
    .error (.valueError ("All argument lists for Multiple Input Sets used with operator "
      ++ opName ++ " must have the same length"))
  else .ok argListLen

/-- Embeds `Operator._unify_lists`: a list passes through, any other value is
replicated (by reference) to the common length.  A tuple or `None` cannot reach
this point — `_preprocess_inputs` promotes or rejects them — and is replicated
as an opaque object, exactly as Python would replicate the unconverted
value. -/
def unify_lists (inputs : List PyVal) (argListLen : Nat) : List (List PyAtom) :=
  inputs.map (fun i =>
    match i with
    | .pylist xs => xs
    | .atom a => List.replicate argListLen a
    | _ => List.replicate argListLen .other)

/-- Embeds `Operator._repack_list`: transposes `[[a, b, c], [d, e, f], ...]` to
`[[a, d, ...], [b, e, ...], [c, f, ...]]`, assuming (as the source comment
does) that all inner lists share the length of the first; the tuple/list
distinction of the Python `fn` argument is erased by the embedding.  Python
indexes `sets[0]` directly, so the empty case is unreachable at its call
sites. -/
def repack_list [Inhabited α] (sets : List (List α)) : List (List α) :=
  let argListLen := (sets.headD []).length
  (List.range argListLen).map (fun i => sets.map (fun s => s.getD i default))

/-- Embeds `Operator._build_input_sets`: no list input means a single input set
is used as given; otherwise the common length is validated, singles are padded
and the per-position lists are transposed into per-set tuples. -/
def build_input_sets (opName : String) (inputs : List PyVal) :
    Except DaliError (List (List PyAtom)) :=
  if detect_multiple_input_sets inputs then
    match check_common_length opName inputs with
    | .error e => .error e
    | .ok argListLen => .ok (repack_list (unify_lists inputs argListLen))
  else
    .ok [inputs.map (fun i => match i with | .atom a => a | _ => .other)]

/-- Result of one top-level operator call, mirroring what `Operator.__call__`
returns: a bare handle, a flat list of handles, or a list of per-output handle
lists. -/
inductive CallResult where
  | single (h : DataHandle)
  | flat (hs : List DataHandle)
  | nested (hss : List (List DataHandle))
  deriving DecidableEq, Repr, Inhabited

/-- Embeds `_OperatorInstance.unwrapped_outputs`: a single output is returned
bare, any other output count as the list itself. -/
def unwrapped_outputs (outs : List DataHandle) : CallResult :=
  match outs with
  | [h] => .single h
  | _ => .flat outs

/-- Embeds `Operator._repack_output_sets`: when there are several sets and the
first set has exactly one output, the batch is flattened to the list of those
single outputs; otherwise the sets are transposed output-index-major. -/
def repack_output_sets (outputs : List (List DataHandle)) : CallResult :=
  if outputs.length > 1 && (outputs.headD []).length = 1 then
    .flat (outputs.map (fun e => e.getD 0 default))
  else
    .nested (repack_list outputs)

/-- Embeds the instance loop of `Operator.__call__`: for every input set, build
an `_OperatorInstance` and immediately generate its outputs, stopping at the
first raised error. -/
def run_instances (op : Operator) (pipelineActive : Bool)
    (kwargs : List (String × PyVal)) :
    List (List PyAtom) → GraphState → Except DaliError (List OpInstance) × GraphState
  | [], st => (.ok [], st)
  | set :: rest, st =>
    match build_instance op set kwargs st with
    | (.error e, st) => (.error e, st)
    | (.ok inst, st) =>
      match generate_outputs op pipelineActive inst st with
      | (.error e, st) => (.error e, st)
      | (.ok inst, st) =>
        match run_instances op pipelineActive kwargs rest st with
        | (.error e, st) => (.error e, st)
        | (.ok insts, st) => (.ok (inst :: insts), st)

/-- Message of the input-count validation of `Operator._check_schema_num_inputs`. -/
def num_inputs_error_msg (op : Operator) (n : Nat) : String :=
  "Operator " ++ op.opTypeName ++ " expects from " ++
  toString op.schema.minNumInput ++ " to " ++ toString op.schema.maxNumInput ++
  " inputs, but received " ++ toString n ++ "."

/-- Embeds `Operator.__call__` (conditional-execution mode disabled): validate
the input count, preprocess the positional inputs, expand them into input sets,
build one instance per set generating its outputs, tie all instances to the
first instance's id as their relation id, and repack the outputs — unwrapped
for a single input set, re-zipped across the batch otherwise.  The returned
value also exposes the created instances, which the Python caller reaches
through the produced handles. -/
def Operator.call (op : Operator) (pipelineActive : Bool) (inputs : List PyVal)
    (kwargs : List (String × PyVal)) (st : GraphState) :
    Except DaliError (CallResult × List OpInstance) × GraphState :=
  if inputs.length < op.schema.minNumInput ||
      inputs.length > op.schema.maxNumInput then
    (.error (.valueError (num_inputs_error_msg op inputs.length)), st)
  else
    match preprocess_inputs op.opTypeName op.device op.schema inputs 0 st with
    | (.error e, st) => (.error e, st)
    | (.ok inputs, st) =>
      match build_input_sets op.opTypeName inputs with
      | .error e => (.error e, st)
      | .ok inputSets =>
        match run_instances op pipelineActive kwargs inputSets st with
        | (.error e, st) => (.error e, st)
        | (.ok insts, st) =>
          let relationId := (insts.headD default).id
          let insts := insts.map (fun i => { i with relationId })
          let result :=
            if insts.length = 1 then unwrapped_outputs (insts.headD default).outputs
            else repack_output_sets (insts.map (·.outputs))
          (.ok (result, insts), st)

/-- Message raised by `_check_common_length` for mismatched input-set lists. -/
def mismatch_msg (opName : String) : String :=
  "All argument lists for Multiple Input Sets used with operator " ++ opName ++
  " must have the same length"

/-- Message raised when an argument was given both in `__init__` and in
`__call__`. -/
def duplicate_arg_msg (argName : String) : String :=
  "The argument `" ++ argName ++ "` was already specified in __init__."

/-- Handle that input-set `i` receives from a positional value: a bare handle
is replicated, a fan-out list contributes its `i`-th handle. -/
def fan_pick (i : Nat) : PyVal → DataHandle
  | .atom (.handle hh) => hh
  | .pylist xs =>
    match xs.getD i .other with
    | .handle hh => hh
    | _ => default
  | _ => default

/-- Example fixture: a handle used to build concrete calls. -/
def exH (n : String) : DataHandle := ⟨n, "cpu", 0⟩

/-- Example fixture: a schema accepting up to five inputs. -/
def exSchema5 : Schema := { minNumInput := 0, maxNumInput := 5 }

/-- Example fixture: a plain single-output operator named `Op`. -/
def exOp : Operator := { opTypeName := "Op", schema := exSchema5 }

/-- Example fixture: an operator requiring exactly one input. -/
def c5op : Operator :=
  { opTypeName := "C", schema := { minNumInput := 1, maxNumInput := 1 } }

/-- Example fixture: a graph state with one pre-existing sink. -/
def c5st : GraphState := { sinks := [exH "s"] }

/-- Example fixture: two fan-out lists of handles with lengths 2 and 3. -/
def c2inputs : List PyVal :=
  [.pylist [.handle (exH "a"), .handle (exH "b")],
   .pylist [.handle (exH "c"), .handle (exH "d"), .handle (exH "e")]]

/-- Claim-side classification of one keyword pair, written from the
specification's precedence list (§4.1): `none` means the pair is dropped,
`some true` call-style, `some false` construction-style.  The primitive
`isinstance` tests are shared with the embedding; only the precedence structure
is restated here, to be compared against `_separate_kwargs`. -/
def spec_classification (name : String) (v : PyVal) : Option Bool :=
  if v = .vNone then none
  else if name = "device" || name = "ndim" then some false
  else if name = "name" then some true
  else if is_arg_input_type v then some true
  else if is_str_list_tuple_sc v then some false
  else if is_scalar_value v then some false
  else some true

/-- Message raised by the deprecation loop of `Operator.__init__` when a
renamed argument collides with its new name. -/
def rename_conflict_msg (opTypeName old new : String) : String :=
  "Operator " ++ opTypeName ++ " got an unexpected'" ++ old ++
  "' deprecated argument when '" ++ new ++ "'was already provided"

/-- Per-pair image of `_add_spec_args` on the `AddArg` channel: `None` and
empty lists or tuples contribute nothing. -/
def spec_args_of (kwargs : List (String × PyVal)) : List (String × PyVal) :=
  kwargs.filterMap (fun kv =>
    match kv.2 with
    | .vNone => none
    | .pylist [] => none
    | .pytuple [] => none
    | v => some (kv.1, v))

/-- Example fixture: a schema whose argument `old` is deprecated and renamed
to `new`. -/
def c9schema : Schema :=
  { isDeprecatedArg := fun k => k = "old",
    deprecatedArgMeta := fun _ => { renamed_to := "new", msg := "use new" } }

/-- Example fixture: the one instance created by calling `exOp` on a single
handle from the empty graph state. -/
def c3insts : List OpInstance :=
  [{ id := 0, relationId := 0, name := "__Op_0", inputs := [exH "a"],
     outputs := [⟨"__Op_0", "cpu", 0⟩],
     spec := { inputs := [("a", "cpu")], outputs := [("__Op_0", "cpu")] } }]

/-- Example fixture: the two instances created by a 2-input-set call of
`exOp`. -/
def c4insts : List OpInstance :=
  [{ id := 0, relationId := 0, name := "__Op_0", inputs := [exH "a"],
     outputs := [⟨"__Op_0", "cpu", 0⟩],
     spec := { inputs := [("a", "cpu")], outputs := [("__Op_0", "cpu")] } },
   { id := 1, relationId := 0, name := "__Op_1", inputs := [exH "b"],
     outputs := [⟨"__Op_1", "cpu", 1⟩],
     spec := { inputs := [("b", "cpu")], outputs := [("__Op_1", "cpu")] } }]

/-- Example fixture: a zero-output operator without the preserve flag. -/
def c6op : Operator :=
  { opTypeName := "S", schema := { calculateOutputs := fun _ => 0 } }

/-- Example fixture: a zero-output operator with the preserve flag. -/
def c6pres : Operator :=
  { opTypeName := "S", schema := { calculateOutputs := fun _ => 0 },
    preserve := true }

/-- Example fixture: an operator with the call-style argument `rot` bound at
construction time. -/
def c7op : Operator :=
  { opTypeName := "Op", schema := exSchema5,
    callArgs := [("rot", PyVal.atom (.handle (exH "q")))] }

/-- Example fixture: keyword arguments of all classification kinds. -/
def exKwargs : List (String × PyVal) :=
  [("x", .atom (.scalar 3)), ("y", .atom (.handle (exH "a"))),
   ("name", .atom (.str "n")), ("w", .vNone)]

end DaliOps

namespace DaliOps

theorem le_foldl_max (l : List Nat) (init : Nat) : init ≤ l.foldl max init := by
  induction l generalizing init with
  | nil => exact Nat.le_refl _
  | cons x xs ih =>
    exact Nat.le_trans (Nat.le_max_left init x) (ih (max init x))

theorem mem_le_foldl_max {l : List Nat} {a : Nat} (h : a ∈ l) (init : Nat) :
    a ≤ l.foldl max init := by
  induction l generalizing init with
  | nil => cases h
  | cons x xs ih =>
    rcases List.mem_cons.mp h with rfl | h
    · exact Nat.le_trans (Nat.le_max_right init a) (le_foldl_max xs (max init a))
    · exact ih h (max init x)

theorem preprocess_inputs_is_input {inputs : List PyVal}
    (hin : ∀ x ∈ inputs, is_input x = true) (opName device : String)
    (schema : Schema) (idx : Nat) (st : GraphState) :
    preprocess_inputs opName device schema inputs idx st = (.ok inputs, st) := by
  induction inputs generalizing idx with
  | nil => rfl
  | cons x xs ih =>
    have hx := hin x (List.mem_cons_self x xs)
    have hxs : ∀ y ∈ xs, is_input y = true := fun y hy => hin y (List.mem_cons_of_mem x hy)
    simp [preprocess_inputs, hx, ih hxs]

theorem check_common_length_error {inputs : List PyVal} {xs ys : List PyAtom}
    (hx : PyVal.pylist xs ∈ inputs) (hy : PyVal.pylist ys ∈ inputs)
    (hne : xs.length ≠ ys.length) (opName : String) :
    check_common_length opName inputs = .error (.valueError (mismatch_msg opName)) := by
  unfold check_common_length
  have hmax : ∃ i ∈ inputs, (match i with
      | PyVal.pylist zs => zs.length != (inputs.map safe_len).foldl max 0
      | _ => false) = true := by
    set L := (inputs.map safe_len).foldl max 0 with hL
    by_cases hxl : xs.length = L
    · refine ⟨PyVal.pylist ys, hy, ?_⟩
      simp only [bne_iff_ne, ne_eq]
      omega
    · refine ⟨PyVal.pylist xs, hx, ?_⟩
      simp only [bne_iff_ne, ne_eq]
      exact hxl
  have : inputs.any (fun i => match i with
      | PyVal.pylist zs => zs.length != (inputs.map safe_len).foldl max 0
      | _ => false) = true := List.any_eq_true.mpr hmax
  simp only [this]
  rfl

theorem detect_of_mem_pylist {inputs : List PyVal} {xs : List PyAtom}
    (hx : PyVal.pylist xs ∈ inputs) :
    detect_multiple_input_sets inputs = true := by
  unfold detect_multiple_input_sets
  exact List.any_eq_true.mpr ⟨PyVal.pylist xs, hx, rfl⟩

/-- Claim C2 counterexample: on fan-out lists of lengths 2 and 3 the call does
raise the length-mismatch `ValueError` and leaves the graph state untouched,
but the raised message contains no digit at all, so it does not name the
conflicting lengths 2 and 3 — it names only the operator. -/
theorem c2_counterexample :
    (Operator.call exOp true c2inputs [] {}).1
        = .error (.valueError (mismatch_msg "Op"))
    ∧ (mismatch_msg "Op").toList.all (fun c => !c.isDigit) = true
    ∧ (Operator.call exOp true c2inputs [] {}).2 = {} := by
  refine ⟨rfl, by decide, rfl⟩

/-- Claim C2, amended: a call whose preprocessed positional inputs contain two
fan-out lists of different lengths fails with the `InputSetLengthMismatch`
error (`ValueError`) whose message names the operator — but not the conflicting
lengths — and the graph state is left completely unchanged, so no node is
created. -/
theorem c2_length_mismatch_amended (op : Operator) (active : Bool)
    (kwargs : List (String × PyVal)) (st : GraphState) (inputs : List PyVal)
    (hin : ∀ x ∈ inputs, is_input x = true)
    (hmin : op.schema.minNumInput ≤ inputs.length)
    (hmax : inputs.length ≤ op.schema.maxNumInput)
    (hdiff : ∃ xs ys, PyVal.pylist xs ∈ inputs ∧ PyVal.pylist ys ∈ inputs ∧
      xs.length ≠ ys.length) :
    Operator.call op active inputs kwargs st
      = (.error (.valueError (mismatch_msg op.opTypeName)), st) := by
  obtain ⟨xs, ys, hx, hy, hne⟩ := hdiff
  unfold Operator.call
  have hcond : (decide (inputs.length < op.schema.minNumInput) ||
      decide (op.schema.maxNumInput < inputs.length)) = false := by
    simp only [Bool.or_eq_false_iff, decide_eq_false_iff_not, Nat.not_lt]
    exact ⟨hmin, hmax⟩
  simp only [gt_iff_lt, hcond, Bool.false_eq_true, if_false,
    preprocess_inputs_is_input hin]
  unfold build_input_sets
  simp only [detect_of_mem_pylist hx, if_true,
    check_common_length_error hx hy hne]

theorem spec_classification_eq (k : String) (v : PyVal) (h : v ≠ .vNone) :
    spec_classification k v = some (is_call_arg k v) := by
  unfold spec_classification is_call_arg
  simp only [if_neg h]
  by_cases hd : k = "device"
  · simp [hd]
  by_cases hn : k = "ndim"
  · simp [hd, hn]
  by_cases hm : k = "name"
  · simp [hd, hn, hm]
  rcases v with _ | a | xs | xs
  · exact absurd rfl h
  · rcases a with h' | v' | b | v' | s | _ <;>
      simp [hd, hn, hm, is_arg_input_type, is_str_list_tuple_sc, is_scalar_value]
  · simp [hd, hn, hm, is_arg_input_type, is_str_list_tuple_sc, is_scalar_value]
  · simp [hd, hn, hm, is_arg_input_type, is_str_list_tuple_sc, is_scalar_value]

theorem nodup_keys_eq {kwargs : List (String × PyVal)}
    (hnd : (kwargs.map Prod.fst).Nodup) {k : String} {v w : PyVal}
    (hv : (k, v) ∈ kwargs) (hw : (k, w) ∈ kwargs) : v = w := by
  induction kwargs with
  | nil => cases hv
  | cons p rest ih =>
    rcases List.nodup_cons.mp hnd with ⟨hp, hrest⟩
    rcases List.mem_cons.mp hv with rfl | hv'
    · rcases List.mem_cons.mp hw with h | hw'
      · injection h with h1 h2
        exact h2.symm
      · exact absurd (List.mem_map.mpr ⟨(k, w), hw', rfl⟩) hp
    · rcases List.mem_cons.mp hw with rfl | hw'
      · exact absurd (List.mem_map.mpr ⟨(k, v), hv', rfl⟩) hp
      · exact ih hrest hv' hw'

theorem separate_kwargs_eq_spec (kwargs : List (String × PyVal)) :
    separate_kwargs kwargs =
      (kwargs.filterMap (fun kv =>
        if spec_classification kv.1 kv.2 = some false then
          some (kv.1, to_scalar kv.2) else none),
       kwargs.filter (fun kv => spec_classification kv.1 kv.2 = some true)) := by
  induction kwargs with
  | nil => rfl
  | cons kv rest ih =>
    obtain ⟨k, v⟩ := kv
    by_cases hv : v = PyVal.vNone
    · subst hv
      simp [separate_kwargs, ih, spec_classification, List.filterMap_cons,
        List.filter_cons]
    · have hcls := spec_classification_eq k v hv
      by_cases hc : is_call_arg k v = true
      · simp [separate_kwargs, ih, hv, hc, List.filterMap_cons, List.filter_cons,
          hcls]
      · have hc' : is_call_arg k v = false := Bool.eq_false_iff.mpr hc
        simp [separate_kwargs, ih, hv, hc', List.filterMap_cons, List.filter_cons,
          hcls]

/-- Claim C8: `_separate_kwargs` realizes exactly the claimed per-pair
precedence — `None` dropped, `device`/`ndim` construction-style, `name`
call-style, handles call-style, strings, lists, tuples and scalar-constant
wrappers construction-style with wrappers unwrapped, everything else call-style
unless it is a recognized scalar — and on a mapping with distinct names the two
produced mappings have disjoint key sets. -/
theorem c8_kwarg_classification :
    (∀ kwargs : List (String × PyVal),
      separate_kwargs kwargs =
        (kwargs.filterMap (fun kv =>
          if spec_classification kv.1 kv.2 = some false then
            some (kv.1, to_scalar kv.2) else none),
         kwargs.filter (fun kv => spec_classification kv.1 kv.2 = some true)))
    ∧ (∀ kwargs : List (String × PyVal), (kwargs.map Prod.fst).Nodup →
        ∀ k, k ∈ (separate_kwargs kwargs).1.map Prod.fst →
          k ∉ (separate_kwargs kwargs).2.map Prod.fst) := by
  refine ⟨separate_kwargs_eq_spec, fun kwargs hnd k hinit hcall => ?_⟩
  rw [separate_kwargs_eq_spec] at hinit hcall
  simp only [List.mem_map, List.mem_filterMap, List.mem_filter,
    Option.ite_none_right_eq_some, Option.some.injEq, decide_eq_true_eq]
    at hinit hcall
  obtain ⟨⟨k1, v1⟩, ⟨⟨k1', v1'⟩, hmem1, hcls1, hpair⟩, hk1⟩ := hinit
  obtain ⟨⟨k2, v2⟩, ⟨hmem2, hcls2⟩, hk2⟩ := hcall
  rw [Prod.mk.injEq] at hpair
  obtain ⟨rfl, rfl⟩ := hpair
  subst hk1 hk2
  have hv := nodup_keys_eq hnd hmem1 hmem2
  subst hv
  rw [hcls1] at hcls2
  simp at hcls2

/-- Witness for C8's disjointness clause on a concrete mapping. -/
theorem c8_kwarg_classification_witness :
    "x" ∉ (separate_kwargs exKwargs).2.map Prod.fst :=
  c8_kwarg_classification.2 exKwargs (by decide) "x" (by decide)

theorem dictContains_iff {d : List (String × PyVal)} {k : String} :
    dictContains d k = true ↔ k ∈ d.map Prod.fst := by
  simp only [dictContains, List.any_eq_true, List.mem_map, decide_eq_true_eq]

theorem dictLookup_eq_none {d : List (String × PyVal)} {k : String}
    (h : k ∉ d.map Prod.fst) : dictLookup d k = none := by
  induction d with
  | nil => rfl
  | cons kv rest ih =>
    simp only [List.map_cons, List.mem_cons, not_or] at h
    obtain ⟨k', v'⟩ := kv
    have hne : k' ≠ k := fun he => h.1 he.symm
    simp only [dictLookup, if_neg hne, ih h.2]

theorem dictLookup_of_mem_nodup {d : List (String × PyVal)}
    (hnd : (d.map Prod.fst).Nodup) {k : String} {v : PyVal}
    (h : (k, v) ∈ d) : dictLookup d k = some v := by
  induction d with
  | nil => cases h
  | cons kv rest ih =>
    rcases List.mem_cons.mp h with rfl | h'
    · simp [dictLookup]
    · have hk : kv.1 ≠ k := by
        rintro rfl
        exact (List.nodup_cons.mp hnd).1
          (List.mem_map.mpr ⟨(kv.1, v), h', rfl⟩)
      obtain ⟨k', v'⟩ := kv
      simp only [dictLookup, if_neg hk]
      exact ih (List.nodup_cons.mp hnd).2 h'

theorem dictInsert_not_contains {d : List (String × PyVal)} {k : String}
    {v : PyVal} (h : dictContains d k = false) :
    dictInsert d k v = d ++ [(k, v)] := by
  simp [dictInsert, h]

theorem mem_dictErase {d : List (String × PyVal)} {k k' : String} {v : PyVal} :
    (k', v) ∈ dictErase d k ↔ (k', v) ∈ d ∧ k' ≠ k := by
  simp [dictErase, List.mem_filter]

theorem add_spec_args_args (spec : OpSpec) (kwargs : List (String × PyVal)) :
    (add_spec_args spec kwargs).args = spec.args ++ spec_args_of kwargs := by
  induction kwargs generalizing spec with
  | nil => simp [add_spec_args, spec_args_of]
  | cons kv rest ih =>
    obtain ⟨k, v⟩ := kv
    rcases v with _ | a | xs | xs
    · simpa [add_spec_args, spec_args_of, List.filterMap_cons] using ih spec
    · simpa [add_spec_args, spec_args_of, List.filterMap_cons, OpSpec.AddArg]
        using ih (spec.AddArg k (.atom a))
    · cases xs with
      | nil =>
        simpa [add_spec_args, spec_args_of, List.filterMap_cons,
          OpSpec.AddArgEmptyList] using ih (spec.AddArgEmptyList k)
      | cons y ys =>
        simpa [add_spec_args, spec_args_of, List.filterMap_cons, OpSpec.AddArg]
          using ih (spec.AddArg k (.pylist (y :: ys)))
    · cases xs with
      | nil =>
        simpa [add_spec_args, spec_args_of, List.filterMap_cons,
          OpSpec.AddArgEmptyList] using ih (spec.AddArgEmptyList k)
      | cons y ys =>
        simpa [add_spec_args, spec_args_of, List.filterMap_cons, OpSpec.AddArg]
          using ih (spec.AddArg k (.pytuple (y :: ys)))

theorem mem_spec_args_of_scalar {kwargs : List (String × PyVal)} {k : String}
    {n : Int} (h : (k, PyVal.atom (.scalar n)) ∈ kwargs) :
    (k, PyVal.atom (.scalar n)) ∈ spec_args_of kwargs := by
  refine List.mem_filterMap.mpr ⟨(k, PyVal.atom (.scalar n)), h, rfl⟩

theorem spec_args_of_mem {kwargs : List (String × PyVal)} {k : String}
    {v : PyVal} (h : (k, v) ∈ spec_args_of kwargs) : (k, v) ∈ kwargs := by
  obtain ⟨⟨k', v'⟩, hm, he⟩ := List.mem_filterMap.mp h
  rcases v' with _ | a | xs | xs
  · cases he
  · cases he; exact hm
  · cases xs with
    | nil => cases he
    | cons y ys => cases he; exact hm
  · cases xs with
    | nil => cases he
    | cons y ys => cases he; exact hm

theorem separate_kwargs_construction {kwargs : List (String × PyVal)}
    (hvals : ∀ kv ∈ kwargs, ∃ m : Int, kv.2 = .atom (.scalar m))
    (hname : ∀ k ∈ kwargs.map Prod.fst, k ≠ "name") :
    separate_kwargs kwargs = (kwargs, []) := by
  induction kwargs with
  | nil => rfl
  | cons kv rest ih =>
    obtain ⟨k, v⟩ := kv
    obtain ⟨m, hm⟩ := hvals (k, v) (List.mem_cons_self _ _)
    simp only at hm
    subst hm
    have hk : k ≠ "name" := hname k (by simp)
    have ihr := ih (fun kv hkv => hvals kv (List.mem_cons_of_mem _ hkv))
      (fun k' hk' => hname k' (by simp [hk']))
    simp [separate_kwargs, ihr, is_call_arg, is_arg_input_type,
      is_str_list_tuple_sc, is_scalar_value, to_scalar, hk]

theorem apply_deprecations_skip {schema : Schema} {t : String}
    {names : List String} {kwargs : List (String × PyVal)} {warns : List String}
    (h : ∀ k ∈ names, schema.isDeprecatedArg k = false) :
    apply_deprecations schema t names kwargs warns = .ok (kwargs, warns) := by
  induction names with
  | nil => rfl
  | cons m rest ih =>
    have hm := h m (List.mem_cons_self _ _)
    simp [apply_deprecations, hm,
      ih (fun k hk => h k (List.mem_cons_of_mem _ hk))]

theorem apply_deprecations_append_skip {schema : Schema} {t : String}
    {l1 rest : List String} {kwargs : List (String × PyVal)}
    {warns : List String}
    (h : ∀ k ∈ l1, schema.isDeprecatedArg k = false) :
    apply_deprecations schema t (l1 ++ rest) kwargs warns
      = apply_deprecations schema t rest kwargs warns := by
  induction l1 with
  | nil => rfl
  | cons m tail ih =>
    have hm := h m (List.mem_cons_self _ _)
    simp [apply_deprecations, hm,
      ih (fun k hk => h k (List.mem_cons_of_mem _ hk))]

theorem operator_init_scalar_kwargs {kwargs : List (String × PyVal)}
    (t : String) (schema : Schema) (device : String)
    (hvals : ∀ kv ∈ kwargs, ∃ m : Int, kv.2 = .atom (.scalar m))
    (hname : ∀ k ∈ kwargs.map Prod.fst, k ≠ "name")
    (hpres : "preserve" ∉ kwargs.map Prod.fst) :
    Operator.init t schema device kwargs =
      match apply_deprecations schema t (kwargs.map Prod.fst) kwargs [] with
      | .error e => .error e
      | .ok (kw, warns) =>
        .ok ({ opTypeName := t, schema, device,
               spec := add_spec_args
                 ((OpSpec.AddArg {} "device" (.atom (.str device))).AddArg
                   "preserve" (.atom (.pybool false))) kw,
               callArgs := [], preserve := schema.isNoPrune }, warns) := by
  unfold Operator.init
  rw [separate_kwargs_construction hvals hname]
  simp only [check_call_args, dictLookup_eq_none hpres, pyTruthy,
    Bool.false_or]

/-- Claim C9: a construction-time argument flagged deprecated-renamed has its
value moved under the new name with a non-fatal deprecation warning; if the new
name was also supplied directly, construction raises the rename-conflict
`ConfigurationError` (a `TypeError` in the code); an argument flagged
deprecated-removed is dropped, also with a warning, and construction still
succeeds. -/
theorem c9_deprecated_args (t : String) (schema : Schema) (device : String)
    (kwargs : List (String × PyVal)) (old : String) (n : Int)
    (hvals : ∀ kv ∈ kwargs, ∃ m : Int, kv.2 = .atom (.scalar m))
    (hnd : (kwargs.map Prod.fst).Nodup)
    (hspecial : ∀ k ∈ kwargs.map Prod.fst,
      k ≠ "device" ∧ k ≠ "ndim" ∧ k ≠ "name" ∧ k ≠ "preserve")
    (hold : (old, PyVal.atom (.scalar n)) ∈ kwargs)
    (hdep : schema.isDeprecatedArg old = true)
    (honly : ∀ k ∈ kwargs.map Prod.fst, k ≠ old →
      schema.isDeprecatedArg k = false) :
    ((schema.deprecatedArgMeta old).renamed_to ≠ "" →
      ((schema.deprecatedArgMeta old).renamed_to ∈ kwargs.map Prod.fst →
        Operator.init t schema device kwargs =
          .error (.typeError (rename_conflict_msg t old
            (schema.deprecatedArgMeta old).renamed_to)))
      ∧ ((schema.deprecatedArgMeta old).renamed_to ∉ kwargs.map Prod.fst →
        ∃ op, Operator.init t schema device kwargs =
            .ok (op, [(schema.deprecatedArgMeta old).msg])
          ∧ ((schema.deprecatedArgMeta old).renamed_to,
              PyVal.atom (.scalar n)) ∈ op.spec.args
          ∧ ∀ v, (old, v) ∉ op.spec.args))
    ∧ ((schema.deprecatedArgMeta old).renamed_to = "" →
        (schema.deprecatedArgMeta old).removed = true →
      ∃ op, Operator.init t schema device kwargs =
          .ok (op, [(schema.deprecatedArgMeta old).msg])
        ∧ ∀ v, (old, v) ∉ op.spec.args) := by
  have hkeysname : ∀ k ∈ kwargs.map Prod.fst, k ≠ "name" :=
    fun k hk => (hspecial k hk).2.2.1
  have hpres : "preserve" ∉ kwargs.map Prod.fst :=
    fun hp => (hspecial _ hp).2.2.2 rfl
  have hinit := operator_init_scalar_kwargs t schema device hvals hkeysname hpres
  have holdkey : old ∈ kwargs.map Prod.fst :=
    List.mem_map.mpr ⟨(old, PyVal.atom (.scalar n)), hold, rfl⟩
  obtain ⟨l1, l2, hsplit⟩ := List.append_of_mem holdkey
  have hnd2 : (l1 ++ old :: l2).Nodup := hsplit ▸ hnd
  have hdisj := List.disjoint_of_nodup_append hnd2
  have hnotl1 : old ∉ l1 := fun h => hdisj h (List.mem_cons_self _ _)
  have hnotl2 : old ∉ l2 := (List.nodup_cons.mp hnd2.of_append_right).1
  have hl1 : ∀ k ∈ l1, schema.isDeprecatedArg k = false := fun k hk =>
    honly k (hsplit ▸ List.mem_append_left _ hk)
      (fun he => hnotl1 (he ▸ hk))
  have hl2 : ∀ k ∈ l2, schema.isDeprecatedArg k = false := fun k hk =>
    honly k (hsplit ▸ List.mem_append_right _ (List.mem_cons_of_mem _ hk))
      (fun he => hnotl2 (he ▸ hk))
  have hstep : apply_deprecations schema t (kwargs.map Prod.fst) kwargs []
      = apply_deprecations schema t (old :: l2) kwargs [] := by
    rw [hsplit, apply_deprecations_append_skip hl1]
  have hspecargs := fun (kw : List (String × PyVal)) =>
    add_spec_args_args
      ((OpSpec.AddArg {} "device" (.atom (.str device))).AddArg
        "preserve" (.atom (.pybool false))) kw
  have holddev : old ≠ "device" := (hspecial old holdkey).1
  have holdpres : old ≠ "preserve" := (hspecial old holdkey).2.2.2
  constructor
  · intro hr
    constructor
    · intro hc
      have hdc : dictContains kwargs (schema.deprecatedArgMeta old).renamed_to
          = true := dictContains_iff.mpr hc
      rw [hinit, hstep]
      simp only [apply_deprecations, hdep, Bool.not_true, Bool.false_eq_true,
        if_false, if_pos hr, hdc, if_true]
      rfl
    · intro hc
      have hdc : dictContains kwargs (schema.deprecatedArgMeta old).renamed_to
          = false := by
        cases hx : dictContains kwargs (schema.deprecatedArgMeta old).renamed_to
        · rfl
        · exact absurd (dictContains_iff.mp hx) hc
      have hlookold : dictLookup kwargs old = some (PyVal.atom (.scalar n)) :=
        dictLookup_of_mem_nodup hnd hold
      have hnewold : (schema.deprecatedArgMeta old).renamed_to ≠ old :=
        fun he => hc (by rw [he]; exact holdkey)
      rw [hinit, hstep]
      simp only [apply_deprecations, hdep, Bool.not_true, Bool.false_eq_true,
        if_false, if_pos hr, hdc, if_false, hlookold, Option.getD_some,
        dictInsert_not_contains hdc, apply_deprecations_skip hl2]
      refine ⟨_, rfl, ?_, ?_⟩
      · rw [hspecargs]
        refine List.mem_append_right _ (mem_spec_args_of_scalar ?_)
        exact mem_dictErase.mpr
          ⟨List.mem_append_right _ (List.mem_cons_self _ _), hnewold⟩
      · intro v hv
        rw [hspecargs] at hv
        rcases List.mem_append.mp hv with hv | hv
        · simp only [OpSpec.AddArg, List.nil_append] at hv
          rcases List.mem_cons.mp hv with hv | hv
          · exact holddev (congrArg Prod.fst hv)
          rcases List.mem_cons.mp hv with hv | hv
          · exact holdpres (congrArg Prod.fst hv)
          · cases hv
        · exact (mem_dictErase.mp (spec_args_of_mem hv)).2 rfl
  · intro hr0 hrm
    have hnr : ¬((schema.deprecatedArgMeta old).renamed_to ≠ "") :=
      fun h => h hr0
    rw [hinit, hstep]
    simp only [apply_deprecations, hdep, Bool.not_true, Bool.false_eq_true,
      if_false, if_neg hnr, hrm, if_true, apply_deprecations_skip hl2]
    refine ⟨_, rfl, ?_⟩
    intro v hv
    rw [hspecargs] at hv
    rcases List.mem_append.mp hv with hv | hv
    · simp only [OpSpec.AddArg, List.nil_append] at hv
      rcases List.mem_cons.mp hv with hv | hv
      · exact holddev (congrArg Prod.fst hv)
      rcases List.mem_cons.mp hv with hv | hv
      · exact holdpres (congrArg Prod.fst hv)
      · cases hv
    · exact (mem_dictErase.mp (spec_args_of_mem hv)).2 rfl

/-- Witness for C9 on a concrete renamed argument. -/
theorem c9_deprecated_args_witness :
    ∃ op, Operator.init "D" c9schema "cpu" [("old", .atom (.scalar 7))]
        = .ok (op, ["use new"])
      ∧ ("new", PyVal.atom (.scalar 7)) ∈ op.spec.args
      ∧ ∀ v, ("old", v) ∉ op.spec.args :=
  ((c9_deprecated_args "D" c9schema "cpu" [("old", .atom (.scalar 7))] "old" 7
    (fun kv hkv => by obtain rfl := List.mem_singleton.mp hkv; exact ⟨7, rfl⟩)
    (by decide) (by decide) (by decide) (by decide)
    (by decide)).1 (by decide)).2 (by decide)

/-- Witness for the amended C2 theorem at lists of lengths 2 and 3. -/
theorem c2_length_mismatch_amended_witness :
    Operator.call exOp true c2inputs [] {}
      = (.error (.valueError (mismatch_msg "Op")), {}) := by
  refine c2_length_mismatch_amended exOp true [] {} c2inputs (by decide)
    (by decide) (by decide)
    ⟨[.handle (exH "a"), .handle (exH "b")],
     [.handle (exH "c"), .handle (exH "d"), .handle (exH "e")],
     by decide, by decide, by decide⟩

theorem patom_is_handle_iff (y : PyAtom) :
    (match y with | .handle _ => true | _ => false) = true ↔
      ∃ h, y = .handle h := by
  cases y <;> simp

theorem patom_is_handle_sc_iff (y : PyAtom) :
    (match y with
      | .handle _ => true
      | .scalarConst _ => true
      | _ => false) = true ↔
      (∃ h, y = .handle h) ∨ (∃ n, y = .scalarConst n) := by
  cases y <;> simp

theorem detect_cons (v : PyVal) (l : List PyVal) :
    detect_multiple_input_sets (v :: l) =
      ((match v with | .pylist _ => true | _ => false) ||
        detect_multiple_input_sets l) := by
  simp [detect_multiple_input_sets]

theorem preprocess_cons_ok {opName device : String} {schema : Schema}
    {v : PyVal} {rest : List PyVal} {idx : Nat} {st st2 : GraphState}
    {l2 : List PyVal}
    (h : preprocess_inputs opName device schema (v :: rest) idx st
      = (.ok l2, st2)) :
    ∃ w tail st1,
      l2 = w :: tail ∧
      ((is_input v = true ∧ w = v ∧ st1 = st) ∨
       (is_input v = false ∧ convertible_constant v = true ∧
         (∃ hdl, w = PyVal.atom (.handle hdl)) ∧
         st1 = { st with counter := st.counter + 1 })) ∧
      preprocess_inputs opName device schema rest (idx + 1) st1
        = (.ok tail, st2) := by
  rw [preprocess_inputs] at h
  by_cases hiv : is_input v = true
  · simp only [hiv, if_true] at h
    cases hp : preprocess_inputs opName device schema rest (idx + 1) st with
    | mk r st3 =>
      rw [hp] at h
      cases r with
      | error e => simp at h
      | ok tail =>
        simp only [Prod.mk.injEq] at h
        obtain ⟨h1, rfl⟩ := h
        injection h1 with h1
        subst h1
        exact ⟨v, tail, st, rfl, Or.inl ⟨hiv, rfl, rfl⟩, hp⟩
  · have hiv' : is_input v = false := Bool.not_eq_true _ ▸ Bool.eq_false_iff.mpr hiv
    simp only [hiv', Bool.false_eq_true, if_false] at h
    cases hc : convertible_constant v with
    | false =>
      simp only [try_constant, hc, Bool.false_eq_true, if_false] at h
      simp at h
    | true =>
      simp only [try_constant, hc, if_true, instantiate_constant_node] at h
      cases hp : preprocess_inputs opName device schema rest (idx + 1)
          { st with counter := st.counter + 1 } with
      | mk r st3 =>
        rw [hp] at h
        cases r with
        | error e => simp at h
        | ok tail =>
          simp only [Prod.mk.injEq] at h
          obtain ⟨h1, rfl⟩ := h
          injection h1 with h1
          subst h1
          exact ⟨_, tail, _, rfl,
            Or.inr ⟨hiv', rfl, ⟨_, rfl⟩, rfl⟩, hp⟩

/-- Claim C10: a positional argument counts as a data input — and only then is
eligible for fan-out expansion — exactly when it is a handle, a scalar-constant
wrapper, or a list containing at least one handle in which every element is a
handle or wrapper; any other positional value is converted into one constant
node on the input's resolved device (the call failing when the conversion is
impossible), and a converted value never signals multiple input sets. -/
theorem c10_positional_input_classification :
    (∀ v : PyVal, is_input v = true ↔
      (∃ h, v = .atom (.handle h)) ∨ (∃ n, v = .atom (.scalarConst n)) ∨
      (∃ xs, v = .pylist xs ∧ (∃ y ∈ xs, ∃ h, y = .handle h) ∧
        (∀ y ∈ xs, (∃ h, y = .handle h) ∨ (∃ n, y = .scalarConst n))))
    ∧ (∀ opName device schema (v : PyVal) rest idx st,
        is_input v = false → convertible_constant v = true →
        ∃ h : DataHandle,
          h.device = resolved_input_device schema idx device ∧
          h.producer = st.counter ∧
          preprocess_inputs opName device schema (v :: rest) idx st =
            (match preprocess_inputs opName device schema rest (idx + 1)
                { st with counter := st.counter + 1 } with
             | (.error e, st2) => (.error e, st2)
             | (.ok tail, st2) => (.ok (.atom (.handle h) :: tail), st2)))
    ∧ (∀ opName device schema (v : PyVal) rest idx st,
        is_input v = false → convertible_constant v = false →
        preprocess_inputs opName device schema (v :: rest) idx st =
          (.error (.typeError (preprocess_error_msg opName idx v)), st))
    ∧ (∀ opName device schema (l l2 : List PyVal) idx st st2,
        preprocess_inputs opName device schema l idx st = (.ok l2, st2) →
        (detect_multiple_input_sets l2 = true ↔
          ∃ xs, PyVal.pylist xs ∈ l ∧ is_input (.pylist xs) = true)) := by
  refine ⟨?_, ?_, ?_, ?_⟩
  · intro v
    rcases v with _ | a | xs | xs
    · simp [is_input]
    · rcases a with h | n | b | n | s | _ <;> simp [is_input]
    · simp only [is_input, Bool.and_eq_true, List.any_eq_true,
        List.all_eq_true, patom_is_handle_iff, patom_is_handle_sc_iff,
        PyVal.pylist.injEq]
      constructor
      · rintro ⟨h1, h2⟩
        exact Or.inr (Or.inr ⟨xs, rfl, h1, fun y hy => h2 y hy⟩)
      · rintro (⟨h, he⟩ | ⟨n, he⟩ | ⟨ys, he, h1, h2⟩)
        · cases he
        · cases he
        · cases he
          exact ⟨h1, fun y hy => h2 y hy⟩
    · simp [is_input]
  · intro opName device schema v rest idx st hni hcv
    refine ⟨⟨"__Constant_" ++ toString st.counter,
      resolved_input_device schema idx device, st.counter⟩, rfl, rfl, ?_⟩
    simp only [preprocess_inputs, hni, Bool.false_eq_true, if_false,
      try_constant, hcv, if_true, instantiate_constant_node]
  · intro opName device schema v rest idx st hni hcv
    simp only [preprocess_inputs, hni, Bool.false_eq_true, if_false,
      try_constant, hcv, if_true]
  · intro opName device schema l
    induction l with
    | nil =>
      intro l2 idx st st2 h
      simp only [preprocess_inputs, Prod.mk.injEq] at h
      obtain ⟨h1, rfl⟩ := h
      injection h1 with h1
      subst h1
      simp [detect_multiple_input_sets]
    | cons v rest ih =>
      intro l2 idx st st2 h
      obtain ⟨w, tail, st1, rfl, hcase, hrest⟩ := preprocess_cons_ok h
      have iht := ih tail (idx + 1) st1 st2 hrest
      rw [detect_cons, Bool.or_eq_true, iht]
      rcases hcase with ⟨hiv, heq, rfl⟩ | ⟨hiv, _, ⟨hdl, rfl⟩, rfl⟩
      · subst heq
        constructor
        · rintro (hw | ⟨xs, hmem, hq⟩)
          · rcases w with _ | a | ys | ys <;> simp at hw
            exact ⟨ys, List.mem_cons_self _ _, hiv⟩
          · exact ⟨xs, List.mem_cons_of_mem _ hmem, hq⟩
        · rintro ⟨xs, hmem, hq⟩
          rcases List.mem_cons.mp hmem with rfl | hmem
          · exact Or.inl rfl
          · exact Or.inr ⟨xs, hmem, hq⟩
      · constructor
        · rintro (hw | ⟨xs, hmem, hq⟩)
          · cases hw
          · exact ⟨xs, List.mem_cons_of_mem _ hmem, hq⟩
        · rintro ⟨xs, hmem, hq⟩
          rcases List.mem_cons.mp hmem with rfl | hmem
          · rw [hiv] at hq; cases hq
          · exact Or.inr ⟨xs, hmem, hq⟩

/-- Witness for C10: a tuple of handles is rejected by constant promotion. -/
theorem c10_positional_input_classification_witness :
    preprocess_inputs "C" "cpu" exSchema5
        [.pytuple [.handle (exH "a"), .handle (exH "b")]] 0 {}
      = (.error (.typeError (preprocess_error_msg "C" 0
          (.pytuple [.handle (exH "a"), .handle (exH "b")]))), {}) :=
  c10_positional_input_classification.2.2.1 "C" "cpu" exSchema5
    (.pytuple [.handle (exH "a"), .handle (exH "b")]) [] 0 {}
    (by decide) (by decide)

theorem promote_arg_input_cases (k : String) (v : PyVal) (st : GraphState) :
    (promote_fails v = true ∧
      promote_arg_input k v st
        = (.error (.typeError (arg_input_error_msg k v)), st))
    ∨ (promote_fails v = false ∧
      ((∃ h, v = PyVal.atom (.handle h) ∧
          promote_arg_input k v st = (.ok h, st)) ∨
       promote_arg_input k v st =
         (.ok ⟨"__Constant_" ++ toString st.counter, "cpu", st.counter⟩,
          { st with counter := st.counter + 1 }))) := by
  rcases v with _ | a | xs | xs
  · exact Or.inl ⟨rfl, rfl⟩
  · rcases a with h | n | b | n | sv | _
    · exact Or.inr ⟨rfl, Or.inl ⟨h, rfl, rfl⟩⟩
    · exact Or.inr ⟨rfl, Or.inr rfl⟩
    · exact Or.inr ⟨rfl, Or.inr rfl⟩
    · exact Or.inr ⟨rfl, Or.inr rfl⟩
    · exact Or.inl ⟨rfl, rfl⟩
    · exact Or.inl ⟨rfl, rfl⟩
  · cases hc : convertible_constant (PyVal.pylist xs) with
    | true =>
      refine Or.inr ⟨by simp [promote_fails, hc], Or.inr ?_⟩
      simp [promote_arg_input, try_constant, hc, instantiate_constant_node]
    | false =>
      refine Or.inl ⟨by simp [promote_fails, hc], ?_⟩
      simp [promote_arg_input, try_constant, hc]
  · cases hc : convertible_constant (PyVal.pytuple xs) with
    | true =>
      refine Or.inr ⟨by simp [promote_fails, hc], Or.inr ?_⟩
      simp [promote_arg_input, try_constant, hc, instantiate_constant_node]
    | false =>
      refine Or.inl ⟨by simp [promote_fails, hc], ?_⟩
      simp [promote_arg_input, try_constant, hc]

theorem convert_sc_inputs_state (d : String) (l : List PyAtom)
    (st : GraphState) :
    (convert_sc_inputs d l st).2.sinks = st.sinks ∧
    (convert_sc_inputs d l st).2.warnings = st.warnings ∧
    st.counter ≤ (convert_sc_inputs d l st).2.counter := by
  induction l generalizing st with
  | nil => exact ⟨rfl, rfl, Nat.le_refl _⟩
  | cons a rest ih =>
    rcases a with h | v | b | v | sv | _
    case scalarConst =>
      have ihs := ih { st with counter := st.counter + 1 }
      simp only [convert_sc_inputs, instantiate_constant_node]
      cases hc : convert_sc_inputs d rest { st with counter := st.counter + 1 }
        with
      | mk tail st2 =>
        rw [hc] at ihs
        exact ⟨ihs.1, ihs.2.1, Nat.le_trans (Nat.le_succ _) ihs.2.2⟩
    all_goals (
      have ihs := ih st
      simp only [convert_sc_inputs]
      cases hc : convert_sc_inputs d rest st with
      | mk tail st2 =>
        rw [hc] at ihs
        exact ⟨ihs.1, ihs.2.1, ihs.2.2⟩)

theorem convert_sc_inputs_handles (d : String) (hs : List DataHandle)
    (st : GraphState) :
    convert_sc_inputs d (hs.map PyAtom.handle) st = (hs.map PyAtom.handle, st) := by
  induction hs with
  | nil => rfl
  | cons h rest ih =>
    simp only [List.map_cons, convert_sc_inputs, ih]

theorem convert_sc_inputs_good {l : List PyAtom}
    (hg : ∀ a ∈ l, good_atom a = true) (d : String) (st : GraphState) :
    ∃ hs : List DataHandle,
      (convert_sc_inputs d l st).1 = hs.map PyAtom.handle := by
  induction l generalizing st with
  | nil => exact ⟨[], rfl⟩
  | cons a rest ih =>
    have hga := hg a (List.mem_cons_self _ _)
    have ihr := fun st => ih (fun x hx => hg x (List.mem_cons_of_mem _ hx)) st
    rcases a with h | v | b | v | sv | _
    · obtain ⟨hs, hhs⟩ := ihr st
      simp only [convert_sc_inputs]
      cases hc : convert_sc_inputs d rest st with
      | mk tail st2 =>
        rw [hc] at hhs
        exact ⟨h :: hs, by simp_all⟩
    · obtain ⟨hs, hhs⟩ := ihr { st with counter := st.counter + 1 }
      simp only [convert_sc_inputs, instantiate_constant_node]
      cases hc : convert_sc_inputs d rest { st with counter := st.counter + 1 }
        with
      | mk tail st2 =>
        rw [hc] at hhs
        exact ⟨⟨"__Constant_" ++ toString st.counter, d, st.counter⟩ :: hs,
          by simp_all⟩
    all_goals cases hga

theorem collect_handles_map (hs : List DataHandle) :
    collect_handles (hs.map PyAtom.handle) = .ok hs := by
  induction hs with
  | nil => rfl
  | cons h rest ih => simp [collect_handles, ih]

theorem process_arg_inputs_state (op : Operator)
    (callArgs : List (String × PyVal)) (ks : List String) (spec : OpSpec)
    (acc : List DataHandle) (st : GraphState) :
    (process_arg_inputs op callArgs ks spec acc st).2.sinks = st.sinks ∧
    (process_arg_inputs op callArgs ks spec acc st).2.warnings = st.warnings ∧
    st.counter ≤ (process_arg_inputs op callArgs ks spec acc st).2.counter := by
  induction ks generalizing spec acc st with
  | nil => exact ⟨rfl, rfl, Nat.le_refl _⟩
  | cons k rest ih =>
    by_cases hk : k = "name"
    · rw [process_arg_inputs, if_pos hk]
      exact ih spec acc st
    · rw [process_arg_inputs, if_neg hk]
      cases hl : dictLookup callArgs k with
      | none => exact ih spec acc st
      | some argInp =>
        dsimp only
        by_cases hn : argInp = PyVal.vNone
        · rw [if_pos hn]
          exact ih spec acc st
        · rw [if_neg hn]
          rcases promote_arg_input_cases k argInp st with ⟨hf, heq⟩ |
            ⟨hf, ⟨h, hv, heq⟩ | heq⟩
          · rw [heq]
            exact ⟨rfl, rfl, Nat.le_refl _⟩
          · rw [heq]
            cases check_arg_input op.schema op.opTypeName k with
            | error e => exact ⟨rfl, rfl, Nat.le_refl _⟩
            | ok u => exact ih _ _ st
          · rw [heq]
            cases check_arg_input op.schema op.opTypeName k with
            | error e => exact ⟨rfl, rfl, Nat.le_succ _⟩
            | ok u =>
              have ihs := ih (spec.AddArgumentInput k
                  ("__Constant_" ++ toString st.counter))
                (acc ++ [⟨"__Constant_" ++ toString st.counter, "cpu",
                  st.counter⟩]) { st with counter := st.counter + 1 }
              exact ⟨ihs.1, ihs.2.1, Nat.le_trans (Nat.le_succ _) ihs.2.2⟩

theorem dictLookup_mem {d : List (String × PyVal)} {k : String} {v : PyVal}
    (h : dictLookup d k = some v) : (k, v) ∈ d := by
  induction d with
  | nil => cases h
  | cons kv rest ih =>
    obtain ⟨k2, v2⟩ := kv
    by_cases he : k2 = k
    · subst he
      rw [dictLookup, if_pos rfl] at h
      injection h with h
      subst h
      exact List.mem_cons_self _ _
    · rw [dictLookup, if_neg he] at h
      exact List.mem_cons_of_mem _ (ih h)

theorem dictLookup_some_of_mem_keys {d : List (String × PyVal)} {k : String}
    (h : k ∈ d.map Prod.fst) : ∃ v, dictLookup d k = some v := by
  induction d with
  | nil => cases h
  | cons kv rest ih =>
    obtain ⟨k2, v2⟩ := kv
    by_cases he : k2 = k
    · exact ⟨v2, by rw [dictLookup, if_pos he]⟩
    · have : k ∈ rest.map Prod.fst := by
        rcases List.mem_cons.mp h with h1 | h1
        · exact absurd h1.symm he
        · exact h1
      obtain ⟨v, hv⟩ := ih this
      exact ⟨v, by rw [dictLookup, if_neg he]; exact hv⟩

theorem merge_call_args_ok {defaults : List (String × PyVal)} :
    ∀ {kwargs : List (String × PyVal)},
    (∀ kv ∈ kwargs, kv.2 ≠ PyVal.vNone) →
    (∀ kv ∈ kwargs, dictContains defaults kv.1 = false) →
    (kwargs.map Prod.fst).Nodup →
    ∀ acc, (∀ kv ∈ kwargs, kv.1 ∉ acc.map Prod.fst) →
    merge_call_args defaults acc kwargs = .ok (acc ++ kwargs) := by
  intro kwargs
  induction kwargs with
  | nil => intro _ _ _ acc _; simp [merge_call_args]
  | cons kv rest ih =>
    intro hv hfresh hnd acc hacc
    obtain ⟨k, v⟩ := kv
    have hvh : ¬v = PyVal.vNone := hv (k, v) (List.mem_cons_self _ _)
    have hfh : dictContains defaults k = false :=
      hfresh (k, v) (List.mem_cons_self _ _)
    have hach : dictContains acc k = false := by
      rw [Bool.eq_false_iff]
      intro hcc
      exact hacc (k, v) (List.mem_cons_self _ _) (dictContains_iff.mp hcc)
    rw [merge_call_args, if_neg hvh, hfh]
    simp only [Bool.false_eq_true, if_false, dictInsert_not_contains hach]
    have hrest := ih (fun x hx => hv x (List.mem_cons_of_mem _ hx))
      (fun x hx => hfresh x (List.mem_cons_of_mem _ hx))
      (List.nodup_cons.mp hnd).2 (acc ++ [(k, v)])
      (fun x hx => by
        simp only [List.map_append, List.mem_append, not_or]
        refine ⟨hacc x (List.mem_cons_of_mem _ hx), ?_⟩
        simp only [List.map_cons, List.map_nil, List.mem_singleton]
        intro he
        exact (List.nodup_cons.mp hnd).1 (he ▸ List.mem_map.mpr ⟨x, hx, rfl⟩))
    rw [hrest]
    simp

theorem merge_call_args_error {defaults : List (String × PyVal)} :
    ∀ kwargs : List (String × PyVal),
    (∃ kv ∈ kwargs, kv.2 ≠ PyVal.vNone ∧ dictContains defaults kv.1 = true) →
    ∀ acc, ∃ k2, dictContains defaults k2 = true ∧
      merge_call_args defaults acc kwargs
        = .error (.valueError (duplicate_arg_msg k2)) := by
  intro kwargs
  induction kwargs with
  | nil =>
    rintro ⟨kv, hm, _⟩
    cases hm
  | cons kv rest ih =>
    rintro ⟨kv2, hm, hp⟩ acc
    obtain ⟨k, v⟩ := kv
    by_cases hn : v = PyVal.vNone
    · have hex : ∃ kv ∈ rest, kv.2 ≠ PyVal.vNone ∧
          dictContains defaults kv.1 = true := by
        rcases List.mem_cons.mp hm with rfl | hm2
        · exact absurd hn hp.1
        · exact ⟨kv2, hm2, hp⟩
      obtain ⟨k2, hk2, heq⟩ := ih hex acc
      exact ⟨k2, hk2, by rw [merge_call_args, if_pos hn]; exact heq⟩
    · by_cases hc : dictContains defaults k = true
      · refine ⟨k, hc, ?_⟩
        rw [merge_call_args, if_neg hn, hc]
        rfl
      · have hcf : dictContains defaults k = false := by
          rw [Bool.eq_false_iff]; exact hc
        have hex : ∃ kv ∈ rest, kv.2 ≠ PyVal.vNone ∧
            dictContains defaults kv.1 = true := by
          rcases List.mem_cons.mp hm with rfl | hm2
          · exact absurd hp.2 hc
          · exact ⟨kv2, hm2, hp⟩
        obtain ⟨k2, hk2, heq⟩ := ih hex (dictInsert acc k v)
        refine ⟨k2, hk2, ?_⟩
        rw [merge_call_args, if_neg hn, hcf]
        simpa using heq

theorem separate_kwargs_handles {kwargs : List (String × PyVal)}
    (h : ∀ kv ∈ kwargs, (∃ hh, kv.2 = PyVal.atom (.handle hh)) ∧
      kv.1 ≠ "device" ∧ kv.1 ≠ "ndim") :
    separate_kwargs kwargs = ([], kwargs) := by
  induction kwargs with
  | nil => rfl
  | cons kv rest ih =>
    obtain ⟨k, v⟩ := kv
    obtain ⟨⟨hh, hv⟩, hd, hn⟩ := h (k, v) (List.mem_cons_self _ _)
    simp only at hv
    subst hv
    have ihr := ih (fun x hx => h x (List.mem_cons_of_mem _ hx))
    simp [separate_kwargs, ihr, is_call_arg, is_arg_input_type, hd, hn]

theorem process_arg_inputs_ok {op : Operator}
    {callArgs : List (String × PyVal)} :
    ∀ {ks : List String},
    (∀ k ∈ ks, k ≠ "name" →
      (∃ hh, dictLookup callArgs k = some (PyVal.atom (.handle hh))) ∧
      op.schema.isTensorArgument k = true) →
    ∀ spec acc st, ∃ spec2,
      process_arg_inputs op callArgs ks spec acc st
        = (.ok (spec2, acc ++ arg_input_handles callArgs ks), st) := by
  intro ks
  induction ks with
  | nil =>
    intro _ spec acc st
    exact ⟨spec, by simp [process_arg_inputs, arg_input_handles]⟩
  | cons k rest ih =>
    intro hks spec acc st
    have ihr := ih (fun x hx hxn => hks x (List.mem_cons_of_mem _ hx) hxn)
    by_cases hk : k = "name"
    · subst hk
      rw [process_arg_inputs, if_pos rfl]
      obtain ⟨spec2, hp⟩ := ihr spec acc st
      refine ⟨spec2, ?_⟩
      rw [hp]
      simp [arg_input_handles, List.filterMap_cons]
    · obtain ⟨⟨hh, hlook⟩, htens⟩ := hks k (List.mem_cons_self _ _) hk
      rw [process_arg_inputs, if_neg hk, hlook]
      dsimp only
      rw [if_neg (by simp : ¬PyVal.atom (.handle hh) = PyVal.vNone)]
      have hpro : promote_arg_input k (PyVal.atom (.handle hh)) st
          = (.ok hh, st) := rfl
      have hchk : check_arg_input op.schema op.opTypeName k = .ok () := by
        rw [check_arg_input, if_neg hk, htens]
        simp
      rw [hpro]
      dsimp only
      rw [hchk]
      dsimp only
      obtain ⟨spec2, hp⟩ := ihr (spec.AddArgumentInput k hh.name) (acc ++ [hh]) st
      refine ⟨spec2, ?_⟩
      rw [hp]
      simp [arg_input_handles, List.filterMap_cons, hk, hlook]

theorem process_arg_inputs_error_uniform (op : Operator)
    (callArgs : List (String × PyVal)) :
    ∀ (ks : List String) (spec acc st spec2 acc2 st2 : _) (e : DaliError),
      (∃ s, process_arg_inputs op callArgs ks spec acc st = (.error e, s)) ↔
      (∃ s, process_arg_inputs op callArgs ks spec2 acc2 st2 = (.error e, s)) := by
  intro ks
  induction ks with
  | nil =>
    intro spec acc st spec2 acc2 st2 e
    constructor <;> rintro ⟨s, h⟩ <;> simp [process_arg_inputs] at h
  | cons k rest ih =>
    intro spec acc st spec2 acc2 st2 e
    by_cases hk : k = "name"
    · rw [process_arg_inputs, if_pos hk, process_arg_inputs, if_pos hk]
      exact ih spec acc st spec2 acc2 st2 e
    · rw [process_arg_inputs, if_neg hk, process_arg_inputs, if_neg hk]
      cases hl : dictLookup callArgs k with
      | none => exact ih spec acc st spec2 acc2 st2 e
      | some argInp =>
        dsimp only
        by_cases hn : argInp = PyVal.vNone
        · rw [if_pos hn, if_pos hn]
          exact ih spec acc st spec2 acc2 st2 e
        · rw [if_neg hn, if_neg hn]
          have herr : ∀ (msg : String) (sa sb : GraphState),
              ((∃ s, ((Except.error (DaliError.typeError msg) :
                  Except DaliError (OpSpec × List DataHandle)), sa)
                    = (.error e, s)) ↔
               (∃ s, ((Except.error (DaliError.typeError msg) :
                  Except DaliError (OpSpec × List DataHandle)), sb)
                    = (.error e, s))) := by
            intro msg sa sb
            constructor <;> rintro ⟨s, h⟩ <;>
              rw [Prod.mk.injEq] at h <;>
              exact ⟨_, by rw [Prod.mk.injEq]; exact ⟨h.1, rfl⟩⟩
          rcases promote_arg_input_cases k argInp st with ⟨hf, heq⟩ |
            ⟨hf, hca⟩ <;>
            rcases promote_arg_input_cases k argInp st2 with ⟨hf2, heq2⟩ |
              ⟨hf2, hca2⟩
          · rw [heq, heq2]
            dsimp only
            exact herr _ _ _
          · rw [hf] at hf2; cases hf2
          · rw [hf] at hf2; cases hf2
          · have hok : ∀ (hx : DataHandle) (sty : GraphState),
                promote_arg_input k argInp st = (.ok hx, sty) →
                ∀ (hy : DataHandle) (stz : GraphState),
                promote_arg_input k argInp st2 = (.ok hy, stz) →
                ((∃ s, (match promote_arg_input k argInp st with
                  | (Except.error e2, st3) => (Except.error e2, st3)
                  | (Except.ok h2, st3) =>
                    match check_arg_input op.schema op.opTypeName k with
                    | Except.error e2 => (Except.error e2, st3)
                    | Except.ok _ =>
                      process_arg_inputs op callArgs rest
                        (spec.AddArgumentInput k h2.name) (acc ++ [h2]) st3)
                    = (.error e, s)) ↔
                 (∃ s, (match promote_arg_input k argInp st2 with
                  | (Except.error e2, st3) => (Except.error e2, st3)
                  | (Except.ok h2, st3) =>
                    match check_arg_input op.schema op.opTypeName k with
                    | Except.error e2 => (Except.error e2, st3)
                    | Except.ok _ =>
                      process_arg_inputs op callArgs rest
                        (spec2.AddArgumentInput k h2.name) (acc2 ++ [h2]) st3)
                    = (.error e, s))) := by
              intro hx sty hpx hy stz hpy
              rw [hpx, hpy]
              dsimp only
              cases hchk : check_arg_input op.schema op.opTypeName k with
              | error e2 =>
                constructor <;> rintro ⟨s, h⟩ <;>
                  rw [Prod.mk.injEq] at h <;>
                  exact ⟨_, by rw [Prod.mk.injEq]; exact ⟨h.1, rfl⟩⟩
              | ok u => exact ih _ _ _ _ _ _ e
            rcases hca with ⟨h1, hv1, heq⟩ | heq <;>
              rcases hca2 with ⟨h2, hv2, heq2⟩ | heq2
            · exact hok _ _ heq _ _ heq2
            · exact hok _ _ heq _ _ heq2
            · exact hok _ _ heq _ _ heq2
            · exact hok _ _ heq _ _ heq2

theorem build_instance_shape (op : Operator) (set : List PyAtom)
    (kwargs : List (String × PyVal)) (st : GraphState) :
    (build_instance op set kwargs st).2.sinks = st.sinks ∧
    st.counter < (build_instance op set kwargs st).2.counter ∧
    (∀ inst, (build_instance op set kwargs st).1 = .ok inst →
      inst.id = st.counter ∧ inst.relationId = st.counter ∧
      inst.outputs = []) := by
  rw [build_instance]
  cases hc : convert_sc_inputs (if op.device = "gpu" then "gpu" else "cpu") set
      { st with counter := st.counter + 1 } with
  | mk inputs2 st2 =>
    have hcs := convert_sc_inputs_state
      (if op.device = "gpu" then "gpu" else "cpu") set
      { st with counter := st.counter + 1 }
    rw [hc] at hcs
    obtain ⟨hsk, hwn, hct⟩ := hcs
    have hlt : st.counter < st2.counter :=
      Nat.lt_of_lt_of_le (Nat.lt_succ_self _) hct
    dsimp only
    cases hm : merge_call_args op.callArgs op.callArgs
        (separate_kwargs kwargs).2 with
    | error e =>
      dsimp only
      exact ⟨hsk, hlt, fun inst h => by cases h⟩
    | ok cargs =>
      dsimp only
      cases hcol : collect_handles inputs2 with
      | error e =>
        dsimp only
        exact ⟨hsk, hlt, fun inst h => by cases h⟩
      | ok hs2 =>
        dsimp only
        cases hp : process_arg_inputs op cargs
            (sorted_keys (cargs.map Prod.fst))
            (hs2.foldl (fun sp h => sp.AddInput h.name h.device)
              (add_spec_args op.spec (separate_kwargs kwargs).1)) [] st2 with
        | mk pr st3 =>
          have hps := process_arg_inputs_state op cargs
            (sorted_keys (cargs.map Prod.fst))
            (hs2.foldl (fun sp h => sp.AddInput h.name h.device)
              (add_spec_args op.spec (separate_kwargs kwargs).1)) [] st2
          rw [hp] at hps
          obtain ⟨hsk3, hwn3, hct3⟩ := hps
          have hlt3 : st.counter < st3.counter := Nat.lt_of_lt_of_le hlt hct3
          cases pr with
          | error e =>
            dsimp only
            exact ⟨hsk3.trans hsk, hlt3, fun inst h => by cases h⟩
          | ok pa =>
            obtain ⟨spec2, argHandles⟩ := pa
            dsimp only
            by_cases hd : op.schema.isDeprecated = true
            · simp only [hd, if_true]
              exact ⟨hsk3.trans hsk, hlt3, fun inst h => by
                injection h with h
                subst h
                exact ⟨rfl, rfl, rfl⟩⟩
            · simp only [Bool.eq_false_iff.mpr hd, Bool.false_eq_true, if_false]
              exact ⟨hsk3.trans hsk, hlt3, fun inst h => by
                injection h with h
                subst h
                exact ⟨rfl, rfl, rfl⟩⟩

theorem build_instance_error_canonical {op : Operator}
    {kwargs : List (String × PyVal)} {set : List PyAtom}
    (hg : ∀ a ∈ set, good_atom a = true) (st : GraphState) (e : DaliError) :
    ((∃ s, build_instance op set kwargs st = (.error e, s)) ↔
      (match merge_call_args op.callArgs op.callArgs
          (separate_kwargs kwargs).2 with
       | .error e2 => e = e2
       | .ok cargs => ∃ s, process_arg_inputs op cargs
           (sorted_keys (cargs.map Prod.fst))
           {} [] { counter := 0, sinks := [], warnings := [] }
           = (.error e, s))) := by
  rw [build_instance]
  cases hc : convert_sc_inputs (if op.device = "gpu" then "gpu" else "cpu") set
      { st with counter := st.counter + 1 } with
  | mk inputs2 st2 =>
    have hgood := convert_sc_inputs_good hg
      (if op.device = "gpu" then "gpu" else "cpu")
      { st with counter := st.counter + 1 }
    rw [hc] at hgood
    obtain ⟨hs2, hhs2⟩ := hgood
    dsimp only at hhs2
    subst hhs2
    dsimp only
    cases hm : merge_call_args op.callArgs op.callArgs
        (separate_kwargs kwargs).2 with
    | error e2 =>
      dsimp only
      constructor
      · rintro ⟨s, h⟩
        rw [Prod.mk.injEq] at h
        injection h.1 with h1
        exact h1.symm
      · rintro rfl
        exact ⟨st2, rfl⟩
    | ok cargs =>
      dsimp only
      rw [collect_handles_map hs2]
      dsimp only
      cases hp : process_arg_inputs op cargs
          (sorted_keys (cargs.map Prod.fst))
          (hs2.foldl (fun sp h => sp.AddInput h.name h.device)
            (add_spec_args op.spec (separate_kwargs kwargs).1)) [] st2 with
      | mk pr st3 =>
        have huni := process_arg_inputs_error_uniform op cargs
          (sorted_keys (cargs.map Prod.fst))
          (hs2.foldl (fun sp h => sp.AddInput h.name h.device)
            (add_spec_args op.spec (separate_kwargs kwargs).1)) [] st2
          {} [] { counter := 0, sinks := [], warnings := [] } e
        rw [hp] at huni
        cases pr with
        | error e2 =>
          dsimp only
          rw [← huni]
          constructor
          · rintro ⟨s, h⟩
            rw [Prod.mk.injEq] at h
            injection h.1 with h1
            subst h1
            exact ⟨st3, rfl⟩
          · rintro ⟨s, h⟩
            rw [Prod.mk.injEq] at h
            injection h.1 with h1
            subst h1
            exact ⟨st3, rfl⟩
        | ok pa =>
          obtain ⟨spec2, argHandles⟩ := pa
          dsimp only
          rw [← huni]
          constructor
          · rintro ⟨s, h⟩
            by_cases hd : op.schema.isDeprecated = true
            · simp only [hd, if_true] at h
              rw [Prod.mk.injEq] at h
              cases h.1
            · simp only [Bool.eq_false_iff.mpr hd, Bool.false_eq_true,
                if_false] at h
              rw [Prod.mk.injEq] at h
              cases h.1
          · rintro ⟨s, h⟩
            rw [Prod.mk.injEq] at h
            cases h.1

theorem mint_foldl (op : Operator) (numOutput : Nat) :
    ∀ (n : Nat) (inst : OpInstance) (st : GraphState), ∃ spec2,
      (List.range n).foldl (mint_step op numOutput) (inst, st)
        = ({ inst with spec := spec2, outputs := inst.outputs ++
              (List.range n).map (fun i =>
                ⟨inst.name ++ (if numOutput > 1 then "[" ++ toString i ++ "]"
                  else ""), output_device op, inst.id⟩) },
           { st with sinks := st.sinks ++
              (if op.preserve then (List.range n).map (fun i =>
                (⟨inst.name ++ (if numOutput > 1 then "[" ++ toString i ++ "]"
                  else ""), output_device op, inst.id⟩ : DataHandle))
               else []) }) := by
  intro n
  induction n with
  | zero =>
    intro inst st
    refine ⟨inst.spec, ?_⟩
    cases hpre : op.preserve <;> simp [hpre]
  | succ n ihn =>
    intro inst st
    obtain ⟨spec2, hfold⟩ := ihn inst st
    rw [List.range_succ, List.foldl_append, hfold, List.foldl_cons,
      List.foldl_nil]
    refine ⟨spec2.AddOutput ((inst.name ++
      (if numOutput > 1 then "[" ++ toString n ++ "]" else "")))
      (output_device op), ?_⟩
    rw [mint_step]
    cases hpre : op.preserve <;>
      simp [hpre, List.range_succ, List.append_assoc]

theorem generate_outputs_error {op : Operator} {active : Bool}
    {inst : OpInstance} {st st2 : GraphState} {e : DaliError}
    (h : generate_outputs op active inst st = (.error e, st2)) :
    active = false ∧ op.preserve = true ∧ st2 = st ∧
    e = .pipelineRequired "Operators with side-effects " := by
  rw [generate_outputs] at h
  by_cases hcond : (!active && op.preserve) = true
  · rw [if_pos hcond] at h
    rw [Prod.mk.injEq] at h
    injection h.1 with h1
    rw [Bool.and_eq_true, Bool.not_eq_true'] at hcond
    exact ⟨hcond.1, hcond.2, h.2.symm, h1.symm⟩
  · rw [if_neg hcond] at h
    dsimp only at h
    split at h
    · rw [Prod.mk.injEq] at h
      cases h.1
    · cases hf : (List.range (num_output op inst)).foldl
          (mint_step op (num_output op inst)) (inst, st) with
      | mk a b =>
        rw [hf] at h
        dsimp only at h
        rw [Prod.mk.injEq] at h
        cases h.1

theorem generate_outputs_ok_sink {op : Operator} {active : Bool}
    {inst : OpInstance} (st : GraphState)
    (hcond : (!active && op.preserve) = false)
    (hnum : num_output op inst = 0) (hpres : op.preserve = true) :
    generate_outputs op active inst st =
      (.ok inst, { st with sinks := st.sinks ++
        [⟨sink_name op inst, output_device op, inst.id⟩] }) := by
  rw [generate_outputs, if_neg (by rw [hcond]; exact Bool.false_ne_true)]
  dsimp only
  rw [if_pos (by rw [hnum, hpres]; rfl)]

theorem generate_outputs_ok_mint {op : Operator} {active : Bool}
    {inst : OpInstance} (st : GraphState)
    (hcond : (!active && op.preserve) = false)
    (hnot : (decide (num_output op inst = 0) && op.preserve) = false) :
    ∃ spec2, generate_outputs op active inst st =
      (.ok { inst with
              spec := spec2
              outputs := inst.outputs ++
                minted_outputs op inst (num_output op inst) },
       { st with sinks := st.sinks ++
          (if op.preserve then minted_outputs op inst (num_output op inst)
           else []) }) := by
  obtain ⟨spec2, hfold⟩ := mint_foldl op (num_output op inst)
    (num_output op inst) inst st
  refine ⟨spec2, ?_⟩
  rw [generate_outputs, if_neg (by rw [hcond]; exact Bool.false_ne_true)]
  dsimp only
  rw [if_neg (by rw [hnot]; exact Bool.false_ne_true), hfold]
  rfl

theorem generate_outputs_ok_shape {op : Operator} {active : Bool}
    {inst inst2 : OpInstance} {st st2 : GraphState}
    (h : generate_outputs op active inst st = (.ok inst2, st2)) :
    inst2.id = inst.id ∧ inst2.relationId = inst.relationId ∧
    inst2.name = inst.name ∧ inst2.inputs = inst.inputs ∧
    st2.counter = st.counter ∧ st2.warnings = st.warnings ∧
    (inst.outputs = [] → ∀ o ∈ inst2.outputs, o.producer = inst.id) := by
  rw [generate_outputs] at h
  by_cases hcond : (!active && op.preserve) = true
  · rw [if_pos hcond] at h
    rw [Prod.mk.injEq] at h
    cases h.1
  · rw [if_neg hcond] at h
    dsimp only at h
    by_cases hzs : (decide (num_output op inst = 0) && op.preserve) = true
    · rw [if_pos hzs] at h
      rw [Prod.mk.injEq] at h
      obtain ⟨h1, rfl⟩ := h
      injection h1 with h1
      subst h1
      exact ⟨rfl, rfl, rfl, rfl, rfl, rfl, fun ho o hmem => by
        rw [ho] at hmem; cases hmem⟩
    · rw [if_neg hzs] at h
      obtain ⟨spec2, hfold⟩ := mint_foldl op (num_output op inst)
        (num_output op inst) inst st
      rw [hfold] at h
      dsimp only at h
      rw [Prod.mk.injEq] at h
      obtain ⟨h1, rfl⟩ := h
      injection h1 with h1
      subst h1
      refine ⟨rfl, rfl, rfl, rfl, rfl, rfl, fun ho o hmem => ?_⟩
      rw [ho, List.nil_append] at hmem
      simp only [List.mem_map, List.mem_range] at hmem
      obtain ⟨i, _, rfl⟩ := hmem
      rfl

theorem run_instances_ok {op : Operator} {active : Bool}
    {kwargs : List (String × PyVal)} :
    ∀ {sets : List (List PyAtom)} {st : GraphState} {insts : List OpInstance}
      {st2 : GraphState},
    run_instances op active kwargs sets st = (.ok insts, st2) →
    insts.length = sets.length ∧ st.counter ≤ st2.counter ∧
    List.Pairwise (fun a b => a.id < b.id) insts ∧
    (∀ i ∈ insts, st.counter ≤ i.id ∧ i.id < st2.counter ∧
      i.relationId = i.id ∧ ∀ o ∈ i.outputs, o.producer = i.id) ∧
    (∀ i, insts.head? = some i → i.id = st.counter) := by
  intro sets
  induction sets with
  | nil =>
    intro st insts st2 h
    rw [run_instances] at h
    rw [Prod.mk.injEq] at h
    obtain ⟨h1, rfl⟩ := h
    injection h1 with h1
    subst h1
    exact ⟨rfl, Nat.le_refl _, List.Pairwise.nil,
      fun i hi => absurd hi (List.not_mem_nil _),
      fun i hi => by cases hi⟩
  | cons set rest ih =>
    intro st insts st2 h
    rw [run_instances] at h
    cases hb : build_instance op set kwargs st with
    | mk br bs =>
      rw [hb] at h
      cases br with
      | error e =>
        rw [Prod.mk.injEq] at h
        cases h.1
      | ok inst =>
        dsimp only at h
        cases hg : generate_outputs op active inst bs with
        | mk gr gs =>
          rw [hg] at h
          cases gr with
          | error e =>
            rw [Prod.mk.injEq] at h
            cases h.1
          | ok inst2 =>
            dsimp only at h
            cases hr : run_instances op active kwargs rest gs with
            | mk rr rs =>
              rw [hr] at h
              cases rr with
              | error e =>
                rw [Prod.mk.injEq] at h
                cases h.1
              | ok insts2 =>
                dsimp only at h
                rw [Prod.mk.injEq] at h
                obtain ⟨h1, rfl⟩ := h
                injection h1 with h1
                subst h1
                have hbs := build_instance_shape op set kwargs st
                rw [hb] at hbs
                obtain ⟨hbsk, hblt, hbok⟩ := hbs
                obtain ⟨hid, hrel, hout⟩ := hbok inst rfl
                obtain ⟨hgid, hgrel, hgnm, hgin, hgct, hgwn, hgpr⟩ :=
                  generate_outputs_ok_shape hg
                obtain ⟨ihlen, ihct, ihpw, ihall, ihhead⟩ := ih hr
                have hcnt : bs.counter ≤ rs.counter := hgct ▸ ihct
                have hid2 : inst2.id = st.counter := by rw [hgid, hid]
                refine ⟨by simp [ihlen], Nat.le_trans (Nat.le_of_lt hblt) hcnt,
                  ?_, ?_, ?_⟩
                · refine List.pairwise_cons.mpr ⟨fun j hj => ?_, ihpw⟩
                  have := (ihall j hj).1
                  rw [hid2]
                  exact Nat.lt_of_lt_of_le hblt (hgct ▸ this)
                · intro i hi
                  rcases List.mem_cons.mp hi with rfl | hi2
                  · refine ⟨Nat.le_of_eq hid2.symm,
                      by rw [hid2]; exact Nat.lt_of_lt_of_le hblt hcnt,
                      by rw [hgrel, hrel, hid2], ?_⟩
                    intro o ho
                    rw [hgpr hout o ho, hid, hid2]
                  · obtain ⟨ha, hb2, hc, hd⟩ := ihall i hi2
                    exact ⟨Nat.le_trans (Nat.le_of_lt hblt) (hgct ▸ ha),
                      hb2, hc, hd⟩
                · intro i hi
                  injection hi with hi
                  subst hi
                  exact hid2

theorem run_instances_ok_of {op : Operator} {active : Bool}
    {kwargs : List (String × PyVal)} :
    ∀ {sets : List (List PyAtom)},
    (∀ set ∈ sets, ∀ a ∈ set, good_atom a = true) →
    ((!active && op.preserve) = false) →
    (∀ (set : List PyAtom), (∀ a ∈ set, good_atom a = true) →
      ∀ (st : GraphState) (e : DaliError),
        ¬ ∃ s, build_instance op set kwargs st = (.error e, s)) →
    ∀ st, ∃ insts s, run_instances op active kwargs sets st = (.ok insts, s) := by
  intro sets
  induction sets with
  | nil => exact fun _ _ _ st => ⟨[], st, rfl⟩
  | cons set rest ih =>
    intro hg hcond hnoerr st
    cases hb : build_instance op set kwargs st with
    | mk br bs =>
      cases br with
      | error e =>
        exact absurd ⟨bs, hb⟩
          (hnoerr set (hg set (List.mem_cons_self _ _)) st e)
      | ok inst =>
        cases hg2 : generate_outputs op active inst bs with
        | mk gr gs =>
          cases gr with
          | error e =>
            obtain ⟨ha, hp, _, _⟩ := generate_outputs_error hg2
            rw [ha, hp] at hcond
            cases hcond
          | ok inst2 =>
            obtain ⟨insts, s, hr⟩ :=
              ih (fun x hx => hg x (List.mem_cons_of_mem _ hx)) hcond hnoerr gs
            refine ⟨inst2 :: insts, s, ?_⟩
            rw [run_instances, hb]
            dsimp only
            rw [hg2]
            dsimp only
            rw [hr]

theorem run_instances_error_sinks {op : Operator} {active : Bool}
    {kwargs : List (String × PyVal)} {sets : List (List PyAtom)}
    {st st2 : GraphState} {e : DaliError}
    (hg : ∀ set ∈ sets, ∀ a ∈ set, good_atom a = true)
    (h : run_instances op active kwargs sets st = (.error e, st2)) :
    st2.sinks = st.sinks := by
  cases sets with
  | nil =>
    rw [run_instances, Prod.mk.injEq] at h
    cases h.1
  | cons set rest =>
    rw [run_instances] at h
    cases hb : build_instance op set kwargs st with
    | mk br bs =>
      rw [hb] at h
      have hbs := build_instance_shape op set kwargs st
      rw [hb] at hbs
      cases br with
      | error e2 =>
        rw [Prod.mk.injEq] at h
        rw [← h.2]
        exact hbs.1
      | ok inst =>
        dsimp only at h
        cases hgen : generate_outputs op active inst bs with
        | mk gr gs =>
          rw [hgen] at h
          cases gr with
          | error e2 =>
            obtain ⟨_, _, rfl, _⟩ := generate_outputs_error hgen
            rw [Prod.mk.injEq] at h
            rw [← h.2]
            exact hbs.1
          | ok inst2 =>
            dsimp only at h
            cases hr : run_instances op active kwargs rest gs with
            | mk rr rs =>
              rw [hr] at h
              cases rr with
              | ok insts =>
                dsimp only at h
                rw [Prod.mk.injEq] at h
                cases h.1
              | error e2 =>
                exfalso
                have hcond : (!active && op.preserve) = false := by
                  cases hcc : (!active && op.preserve) with
                  | false => rfl
                  | true =>
                    rw [generate_outputs, if_pos hcc] at hgen
                    rw [Prod.mk.injEq] at hgen
                    cases hgen.1
                have hnoerr : ∀ (set3 : List PyAtom),
                    (∀ a ∈ set3, good_atom a = true) →
                    ∀ (st3 : GraphState) (e3 : DaliError),
                      ¬ ∃ s, build_instance op set3 kwargs st3
                        = (.error e3, s) := by
                  intro set3 hgood3 st3 e3 hex
                  have h1 := (build_instance_error_canonical hgood3 st3 e3).mp
                    hex
                  have h2 := (build_instance_error_canonical
                    (hg set (List.mem_cons_self _ _)) st e3).mpr h1
                  obtain ⟨s, hs⟩ := h2
                  rw [hb, Prod.mk.injEq] at hs
                  cases hs.1
                obtain ⟨insts, s, hok⟩ := run_instances_ok_of
                  (fun x hx => hg x (List.mem_cons_of_mem _ hx)) hcond hnoerr
                  gs
                rw [hok, Prod.mk.injEq] at hr
                cases hr.1

theorem preprocess_inputs_state (opName device : String) (schema : Schema) :
    ∀ (l : List PyVal) (idx : Nat) (st : GraphState),
    (preprocess_inputs opName device schema l idx st).2.sinks = st.sinks ∧
    (preprocess_inputs opName device schema l idx st).2.warnings
      = st.warnings ∧
    st.counter ≤ (preprocess_inputs opName device schema l idx st).2.counter := by
  intro l
  induction l with
  | nil => exact fun idx st => ⟨rfl, rfl, Nat.le_refl _⟩
  | cons v rest ih =>
    intro idx st
    rw [preprocess_inputs]
    by_cases hiv : is_input v = true
    · rw [if_pos hiv]
      dsimp only
      cases hp : preprocess_inputs opName device schema rest (idx + 1) st with
      | mk pr ps =>
        have ihs := ih (idx + 1) st
        rw [hp] at ihs
        cases pr <;> exact ihs
    · rw [if_neg hiv]
      cases hc : try_constant v (resolved_input_device schema idx device) st with
      | none => exact ⟨rfl, rfl, Nat.le_refl _⟩
      | some pr =>
        obtain ⟨hdl, st1⟩ := pr
        have hst1 : st1 = { st with counter := st.counter + 1 } := by
          rw [try_constant] at hc
          by_cases hcv : convertible_constant v = true
          · rw [if_pos hcv] at hc
            injection hc with hc
            exact congrArg Prod.snd hc.symm
          · rw [if_neg hcv] at hc
            cases hc
        subst hst1
        dsimp only
        cases hp : preprocess_inputs opName device schema rest (idx + 1)
            { st with counter := st.counter + 1 } with
        | mk pr ps =>
          have ihs := ih (idx + 1) { st with counter := st.counter + 1 }
          rw [hp] at ihs
          cases pr <;>
            exact ⟨ihs.1, ihs.2.1, Nat.le_trans (Nat.le_succ _) ihs.2.2⟩

theorem is_input_good {v : PyVal} (h : is_input v = true) :
    (∃ a, v = PyVal.atom a ∧ good_atom a = true) ∨
    (∃ xs, v = PyVal.pylist xs ∧ ∀ a ∈ xs, good_atom a = true) := by
  rcases v with _ | a | xs | xs
  · cases h
  · exact Or.inl ⟨a, rfl, by
      rcases a with _ | _ | _ | _ | _ | _ <;> first | rfl | cases h⟩
  · refine Or.inr ⟨xs, rfl, fun a ha => ?_⟩
    rw [is_input, Bool.and_eq_true, List.all_eq_true] at h
    have := h.2 a ha
    rcases a with _ | _ | _ | _ | _ | _ <;> first | rfl | cases this
  · cases h

theorem preprocess_inputs_good {opName device : String} {schema : Schema} :
    ∀ {l l2 : List PyVal} {idx : Nat} {st st2 : GraphState},
    preprocess_inputs opName device schema l idx st = (.ok l2, st2) →
    ∀ v ∈ l2, (∃ a, v = PyVal.atom a ∧ good_atom a = true) ∨
      (∃ xs, v = PyVal.pylist xs ∧ ∀ a ∈ xs, good_atom a = true) := by
  intro l
  induction l with
  | nil =>
    intro l2 idx st st2 h v hv
    rw [preprocess_inputs, Prod.mk.injEq] at h
    obtain ⟨h1, _⟩ := h
    injection h1 with h1
    subst h1
    cases hv
  | cons w rest ih =>
    intro l2 idx st st2 h v hv
    obtain ⟨w2, tail, st1, rfl, hcase, hrest⟩ := preprocess_cons_ok h
    rcases List.mem_cons.mp hv with rfl | hv2
    · rcases hcase with ⟨hiv, heq, _⟩ | ⟨_, _, ⟨hdl, rfl⟩, _⟩
      · exact heq ▸ is_input_good hiv
      · exact Or.inl ⟨.handle hdl, rfl, rfl⟩
    · exact ih hrest v hv2

theorem build_input_sets_good {opName : String} {inputs : List PyVal}
    {sets : List (List PyAtom)}
    (hgood : ∀ v ∈ inputs, (∃ a, v = PyVal.atom a ∧ good_atom a = true) ∨
      (∃ xs, v = PyVal.pylist xs ∧ ∀ a ∈ xs, good_atom a = true))
    (h : build_input_sets opName inputs = .ok sets) :
    ∀ set ∈ sets, ∀ a ∈ set, good_atom a = true := by
  intro set hset a ha
  rw [build_input_sets] at h
  by_cases hd : detect_multiple_input_sets inputs = true
  · rw [if_pos hd] at h
    cases hc : check_common_length opName inputs with
    | error e => rw [hc] at h; cases h
    | ok len =>
      rw [hc] at h
      injection h with h
      subst h
      have hunify : ∀ s ∈ unify_lists inputs len, ∀ b ∈ s,
          good_atom b = true := by
        intro s hs b hb
        rw [unify_lists] at hs
        obtain ⟨v, hv, hveq⟩ := List.mem_map.mp hs
        rcases hgood v hv with ⟨a2, rfl, hga⟩ | ⟨xs, rfl, hxs⟩
        · dsimp only at hveq
          subst hveq
          rw [List.eq_of_mem_replicate hb]
          exact hga
        · dsimp only at hveq
          subst hveq
          exact hxs b hb
      rw [repack_list] at hset
      obtain ⟨i, _, hseteq⟩ := List.mem_map.mp hset
      subst hseteq
      obtain ⟨s, hs, haeq⟩ := List.mem_map.mp ha
      subst haeq
      by_cases hlen : i < s.length
      · rw [List.getD_eq_getElem _ _ hlen]
        exact hunify s hs _ (List.getElem_mem hlen)
      · rw [List.getD_eq_default _ _ (Nat.le_of_not_lt hlen)]
        rfl
  · rw [if_neg hd] at h
    injection h with h
    subst h
    rcases List.mem_singleton.mp hset with rfl
    obtain ⟨v, hv, haeq⟩ := List.mem_map.mp ha
    rcases hgood v hv with ⟨a2, rfl, hga⟩ | ⟨xs, rfl, hxs⟩
    · dsimp only at haeq
      subst haeq
      exact hga
    · exact absurd (detect_of_mem_pylist hv) hd

theorem operator_call_ok {op : Operator} {active : Bool} {inputs : List PyVal}
    {kwargs : List (String × PyVal)} {st : GraphState} {res : CallResult}
    {insts : List OpInstance} {st2 : GraphState}
    (h : Operator.call op active inputs kwargs st = (.ok (res, insts), st2)) :
    ∃ (inputs2 : List PyVal) (stp : GraphState) (sets : List (List PyAtom))
      (insts0 : List OpInstance),
      preprocess_inputs op.opTypeName op.device op.schema inputs 0 st
        = (.ok inputs2, stp) ∧
      build_input_sets op.opTypeName inputs2 = .ok sets ∧
      run_instances op active kwargs sets stp = (.ok insts0, st2) ∧
      insts = insts0.map (fun i =>
        { i with relationId := (insts0.headD default).id }) ∧
      res = (if insts.length = 1 then
          unwrapped_outputs (insts.headD default).outputs
        else repack_output_sets (insts.map (fun i => i.outputs))) := by
  rw [Operator.call] at h
  by_cases hnum : (decide (inputs.length < op.schema.minNumInput) ||
      decide (op.schema.maxNumInput < inputs.length)) = true
  · rw [if_pos hnum] at h
    rw [Prod.mk.injEq] at h
    cases h.1
  · rw [if_neg hnum] at h
    cases hp : preprocess_inputs op.opTypeName op.device op.schema inputs 0 st
      with
    | mk pr stp =>
      rw [hp] at h
      cases pr with
      | error e =>
        rw [Prod.mk.injEq] at h
        cases h.1
      | ok inputs2 =>
        dsimp only at h
        cases hbs : build_input_sets op.opTypeName inputs2 with
        | error e =>
          rw [hbs] at h
          rw [Prod.mk.injEq] at h
          cases h.1
        | ok sets =>
          rw [hbs] at h
          dsimp only at h
          cases hr : run_instances op active kwargs sets stp with
          | mk rr rs =>
            rw [hr] at h
            cases rr with
            | error e =>
              rw [Prod.mk.injEq] at h
              cases h.1
            | ok insts0 =>
              dsimp only at h
              rw [Prod.mk.injEq] at h
              obtain ⟨h1, rfl⟩ := h
              injection h1 with h1
              rw [Prod.mk.injEq] at h1
              obtain ⟨hres, hinsts⟩ := h1
              exact ⟨inputs2, stp, sets, insts0, rfl, hbs, hr, hinsts.symm,
                by rw [← hres, hinsts]⟩

/-- Claim C5: every fatal failure of a top-level call leaves the pipeline's
public sink list exactly as it was — no partially constructed node or sink
handle becomes reachable, even when a later instance of a multi-input-set
batch fails after earlier instances were built. -/
theorem c5_error_atomicity (op : Operator) (active : Bool)
    (inputs : List PyVal) (kwargs : List (String × PyVal)) (st : GraphState)
    (e : DaliError) (st2 : GraphState)
    (h : Operator.call op active inputs kwargs st = (.error e, st2)) :
    st2.sinks = st.sinks := by
  rw [Operator.call] at h
  by_cases hnum : (decide (inputs.length < op.schema.minNumInput) ||
      decide (op.schema.maxNumInput < inputs.length)) = true
  · rw [if_pos hnum, Prod.mk.injEq] at h
    rw [← h.2]
  · rw [if_neg hnum] at h
    cases hp : preprocess_inputs op.opTypeName op.device op.schema inputs 0 st
      with
    | mk pr stp =>
      rw [hp] at h
      have hps := preprocess_inputs_state op.opTypeName op.device op.schema
        inputs 0 st
      rw [hp] at hps
      cases pr with
      | error e2 =>
        rw [Prod.mk.injEq] at h
        rw [← h.2]
        exact hps.1
      | ok inputs2 =>
        dsimp only at h
        cases hbs : build_input_sets op.opTypeName inputs2 with
        | error e2 =>
          rw [hbs] at h
          rw [Prod.mk.injEq] at h
          rw [← h.2]
          exact hps.1
        | ok sets =>
          rw [hbs] at h
          dsimp only at h
          cases hr : run_instances op active kwargs sets stp with
          | mk rr rs =>
            rw [hr] at h
            cases rr with
            | ok insts0 =>
              dsimp only at h
              rw [Prod.mk.injEq] at h
              cases h.1
            | error e2 =>
              rw [Prod.mk.injEq] at h
              obtain ⟨h1, rfl⟩ := h
              have hgood := build_input_sets_good
                (preprocess_inputs_good hp) hbs
              have := run_instances_error_sinks hgood hr
              rw [this]
              exact hps.1

/-- Witness for C5 at a concrete failing call (input-count violation). -/
theorem c5_error_atomicity_witness :
    ((Operator.call c5op true [] [] c5st).2).sinks = [exH "s"] :=
  c5_error_atomicity c5op true [] [] c5st
    (.valueError (num_inputs_error_msg c5op 0)) c5st rfl

theorem call_ok_id_bounds {op : Operator} {active : Bool}
    {inputs : List PyVal} {kwargs : List (String × PyVal)} {st : GraphState}
    {res : CallResult} {insts : List OpInstance} {st2 : GraphState}
    (h : Operator.call op active inputs kwargs st = (.ok (res, insts), st2)) :
    ∀ i ∈ insts, st.counter ≤ i.id ∧ i.id < st2.counter := by
  obtain ⟨inputs2, stp, sets, insts0, hp, hbs, hr, hmap, hres⟩ :=
    operator_call_ok h
  have hpm := (preprocess_inputs_state op.opTypeName op.device op.schema
    inputs 0 st).2.2
  rw [hp] at hpm
  obtain ⟨_, _, _, hall, _⟩ := run_instances_ok hr
  intro i hi
  rw [hmap] at hi
  obtain ⟨i0, hi0, rfl⟩ := List.mem_map.mp hi
  obtain ⟨ha, hb, _, _⟩ := hall i0 hi0
  exact ⟨Nat.le_trans hpm ha, hb⟩

/-- Claim C3: node ids are globally unique and strictly increasing in creation
order — within one call the created instances carry strictly increasing ids
bounded by the counter interval of the call, so two successive calls never
share an id — and every node's `relation_id` is the first instance's id, at
most its own id, with equality exactly for the batch's first node; in
particular a single-input-set call yields one node whose `relation_id` is its
own id. -/
theorem c3_id_relation_invariants (op : Operator) (active : Bool)
    (inputs : List PyVal) (kwargs : List (String × PyVal)) (st : GraphState)
    (res : CallResult) (insts : List OpInstance) (st2 : GraphState)
    (h : Operator.call op active inputs kwargs st = (.ok (res, insts), st2)) :
    List.Pairwise (fun a b => a.id < b.id) insts ∧
    (∀ i ∈ insts, st.counter ≤ i.id ∧ i.id < st2.counter) ∧
    (∀ first, insts.head? = some first → first ∈ insts ∧
      ∀ i ∈ insts, i.relationId = first.id ∧ first.id ≤ i.id) ∧
    (∀ n i, insts.get? n = some i → (i.relationId = i.id ↔ n = 0)) ∧
    (insts.length = 1 → ∀ i ∈ insts, i.relationId = i.id) ∧
    (∀ op2 active2 inputs2 kwargs2 res2 insts2 st3,
      Operator.call op2 active2 inputs2 kwargs2 st2
        = (.ok (res2, insts2), st3) →
      ∀ i ∈ insts, ∀ j ∈ insts2, i.id ≠ j.id) := by
  obtain ⟨inputs2, stp, sets, insts0, hp, hbs, hr, hmap, hres⟩ :=
    operator_call_ok h
  obtain ⟨hlen, hct, hpw, hall, hhead⟩ := run_instances_ok hr
  have hbounds := call_ok_id_bounds h
  have hmain : List.Pairwise (fun a b => a.id < b.id) insts ∧
      (∀ first, insts.head? = some first → first ∈ insts ∧
        ∀ i ∈ insts, i.relationId = first.id ∧ first.id ≤ i.id) ∧
      (∀ n i, insts.get? n = some i → (i.relationId = i.id ↔ n = 0)) := by
    rw [hmap]
    cases insts0 with
    | nil =>
      refine ⟨List.Pairwise.nil, ?_, ?_⟩
      · intro first hf
        cases hf
      · intro n i hi
        rw [List.get?_map] at hi
        cases hn : List.get? ([] : List OpInstance) n with
        | none => rw [hn] at hi; cases hi
        | some x => cases hn
    | cons a t =>
      have hhid : a.id = stp.counter := hhead a rfl
      have hat : ∀ b ∈ t, a.id < b.id := (List.pairwise_cons.mp hpw).1
      refine ⟨?_, ?_, ?_⟩
      · rw [List.pairwise_map]
        exact hpw
      · intro first hf
        rw [List.map_cons] at hf ⊢
        injection hf with hf
        subst hf
        refine ⟨List.mem_cons_self _ _, ?_⟩
        intro i hi
        rcases List.mem_cons.mp hi with rfl | hi2
        · exact ⟨rfl, Nat.le_refl _⟩
        · obtain ⟨i0, hi0, rfl⟩ := List.mem_map.mp hi2
          refine ⟨rfl, ?_⟩
          exact Nat.le_of_lt (hat i0 hi0)
      · intro n i hi
        rw [List.get?_map] at hi
        cases hn : (a :: t).get? n with
        | none => rw [hn] at hi; cases hi
        | some i0 =>
          rw [hn] at hi
          injection hi with hi
          subst hi
          cases n with
          | zero =>
            injection hn with hn
            subst hn
            simp
          | succ m =>
            rw [List.get?_cons_succ] at hn
            have hmem : i0 ∈ t := List.get?_mem hn
            have hlt := hat i0 hmem
            constructor
            · intro hcontra
              exact absurd (show a.id = i0.id from hcontra)
                (Nat.ne_of_lt hlt)
            · intro hcontra
              exact absurd hcontra (Nat.succ_ne_zero m)
  refine ⟨hmain.1, hbounds, hmain.2.1, hmain.2.2, ?_, ?_⟩
  · intro hlen1 i hi
    have hget : insts.get? 0 = some i := by
      cases insts with
      | nil => cases hi
      | cons x xs =>
        rcases List.mem_cons.mp hi with rfl | hi2
        · rfl
        · rw [List.length_cons] at hlen1
          have hxs : xs.length = 0 := by omega
          rw [List.length_eq_zero] at hxs
          subst hxs
          cases hi2
    exact (hmain.2.2 0 i hget).mpr rfl
  · intro op2 active2 inputsb kwargsb resb instsb st3 h2 i hi j hj
    have hb2 := call_ok_id_bounds h2 j hj
    have hb1 := hbounds i hi
    exact Nat.ne_of_lt (Nat.lt_of_lt_of_le hb1.2 hb2.1)

/-- Witness for C3 at a concrete single-input-set call: the one node's
relation id equals its own id. -/
theorem c3_id_relation_invariants_witness :
    (c3insts.headD default).relationId = (c3insts.headD default).id :=
  (c3_id_relation_invariants exOp true [.atom (.handle (exH "a"))] [] {}
    (.single ⟨"__Op_0", "cpu", 0⟩) c3insts { counter := 1 } rfl).2.2.2.2.1 rfl
    (c3insts.headD default) (List.mem_cons_self _ _)

theorem unwrapped_outputs_len_ne {outs : List DataHandle}
    (h : outs.length ≠ 1) : unwrapped_outputs outs = .flat outs := by
  cases outs with
  | nil => rfl
  | cons a t =>
    cases t with
    | nil => exact absurd rfl h
    | cons b t2 => rfl

theorem call_ok_producers {op : Operator} {active : Bool} {inputs : List PyVal}
    {kwargs : List (String × PyVal)} {st : GraphState} {res : CallResult}
    {insts : List OpInstance} {st2 : GraphState}
    (h : Operator.call op active inputs kwargs st = (.ok (res, insts), st2)) :
    ∀ i ∈ insts, ∀ o ∈ i.outputs, o.producer = i.id := by
  obtain ⟨inputs2, stp, sets, insts0, hp, hbs, hr, hmap, hres⟩ :=
    operator_call_ok h
  obtain ⟨_, _, _, hall, _⟩ := run_instances_ok hr
  intro i hi o ho
  rw [hmap] at hi
  obtain ⟨i0, hi0, rfl⟩ := List.mem_map.mp hi
  exact (hall i0 hi0).2.2.2 o ho

/-- Claim C4: output repacking inverts expansion — a batch of one returns the
single node's outputs unwrapped (a bare handle for one output, the flat list
otherwise); a larger batch is re-zipped output-index-major, except that when
every input set produces exactly one output the result is the flat list of
those handles in input-set order; and every returned handle's producer is the
node that minted it. -/
theorem c4_output_repacking (op : Operator) (active : Bool)
    (inputs : List PyVal) (kwargs : List (String × PyVal)) (st : GraphState)
    (res : CallResult) (insts : List OpInstance) (st2 : GraphState)
    (h : Operator.call op active inputs kwargs st = (.ok (res, insts), st2)) :
    (∀ i ∈ insts, ∀ o ∈ i.outputs, o.producer = i.id) ∧
    (∀ inst, insts = [inst] →
      res = unwrapped_outputs inst.outputs ∧
      (∀ h1, inst.outputs = [h1] → res = .single h1) ∧
      (inst.outputs.length ≠ 1 → res = .flat inst.outputs)) ∧
    (insts.length > 1 → (∀ i ∈ insts, i.outputs.length = 1) →
      res = .flat (insts.map (fun i => i.outputs.getD 0 default))) ∧
    (∀ k, insts.length > 1 → (∀ i ∈ insts, i.outputs.length = k) → k ≠ 1 →
      res = .nested ((List.range k).map (fun j =>
        insts.map (fun i => i.outputs.getD j default)))) := by
  obtain ⟨inputs2, stp, sets, insts0, hp, hbs, hr, hmap, hres⟩ :=
    operator_call_ok h
  refine ⟨call_ok_producers h, ?_, ?_, ?_⟩
  · intro inst hinst
    subst hinst
    rw [hres]
    simp only [List.length_singleton, if_true]
    refine ⟨rfl, ?_, ?_⟩
    · intro h1 hout
      simp only [List.headD_cons, hout, unwrapped_outputs]
    · intro hne
      simp only [List.headD_cons]
      exact unwrapped_outputs_len_ne hne
  · intro hgt hlens
    rw [hres, if_neg (by omega)]
    cases insts with
    | nil => simp at hgt
    | cons a t =>
      rw [repack_output_sets]
      have hc : (decide (((a :: t).map (fun i => i.outputs)).length > 1) &&
          decide ((((a :: t).map (fun i => i.outputs)).headD []).length = 1))
          = true := by
        rw [Bool.and_eq_true, decide_eq_true_eq, decide_eq_true_eq]
        refine ⟨by simpa using hgt, ?_⟩
        simp only [List.map_cons, List.headD_cons]
        exact hlens a (List.mem_cons_self _ _)
      rw [if_pos hc, List.map_map]
      rfl
  · intro k hgt hlens hk
    rw [hres, if_neg (by omega)]
    cases insts with
    | nil => simp at hgt
    | cons a t =>
      rw [repack_output_sets]
      have hhd : (((a :: t).map (fun i => i.outputs)).headD []).length = k := by
        simp only [List.map_cons, List.headD_cons]
        exact hlens a (List.mem_cons_self _ _)
      rw [if_neg (by
        rw [Bool.and_eq_true]
        rintro ⟨_, hc2⟩
        rw [decide_eq_true_eq] at hc2
        exact hk (hhd ▸ hc2))]
    -- nested branch
      rw [repack_list, hhd]
      simp only [List.map_map]
      rfl

/-- Witness for C4 at a concrete 2-input-set single-output call: the result is
the flat list of each node's single output, in input-set order. -/
theorem c4_output_repacking_witness :
    CallResult.flat [⟨"__Op_0", "cpu", 0⟩, ⟨"__Op_1", "cpu", 1⟩]
      = .flat (c4insts.map (fun i => i.outputs.getD 0 default)) :=
  (c4_output_repacking exOp true [.pylist [.handle (exH "a"),
      .handle (exH "b")]] [] {}
    (.flat [⟨"__Op_0", "cpu", 0⟩, ⟨"__Op_1", "cpu", 1⟩]) c4insts
    { counter := 2 } rfl).2.2.1 (by decide) (by decide)

theorem mem_insert_key {a k : String} {l : List String} :
    a ∈ insert_key k l ↔ a = k ∨ a ∈ l := by
  induction l with
  | nil => simp [insert_key]
  | cons k2 rest ih =>
    rw [insert_key]
    by_cases hle : key_le k k2 = true
    · simp [hle]
    · rw [if_neg hle]
      simp only [List.mem_cons, ih]
      tauto

theorem mem_sorted_keys {a : String} {l : List String} :
    a ∈ sorted_keys l ↔ a ∈ l := by
  induction l with
  | nil => simp [sorted_keys]
  | cons k rest ih =>
    rw [sorted_keys, mem_insert_key, ih, List.mem_cons]

theorem build_instance_ok_full {op : Operator}
    {kwargs : List (String × PyVal)}
    (hca : ∀ kv ∈ op.callArgs, (∃ hh, kv.2 = PyVal.atom (.handle hh)) ∧
      kv.1 ≠ "name" ∧ op.schema.isTensorArgument kv.1 = true)
    (hkw : ∀ kv ∈ kwargs, (∃ hh, kv.2 = PyVal.atom (.handle hh)) ∧
      kv.1 ≠ "name" ∧ kv.1 ≠ "device" ∧ kv.1 ≠ "ndim" ∧
      op.schema.isTensorArgument kv.1 = true ∧
      dictContains op.callArgs kv.1 = false)
    (hnd : (kwargs.map Prod.fst).Nodup)
    (hs : List DataHandle) (st : GraphState) :
    ∃ spec2, build_instance op (hs.map PyAtom.handle) kwargs st =
      (.ok { id := st.counter
             relationId := st.counter
             name := "__" ++ op.opTypeName ++ "_" ++ toString st.counter
             inputs := hs ++ arg_input_handles (op.callArgs ++ kwargs)
               (sorted_keys ((op.callArgs ++ kwargs).map Prod.fst))
             outputs := []
             spec := spec2 },
       { st with
         counter := st.counter + 1
         warnings := st.warnings ++
           (if op.schema.isDeprecated then [op_deprecation_msg op]
            else []) }) := by
  have hsep : separate_kwargs kwargs = ([], kwargs) :=
    separate_kwargs_handles (fun kv hkv =>
      ⟨(hkw kv hkv).1, (hkw kv hkv).2.2.1, (hkw kv hkv).2.2.2.1⟩)
  have hmerge : merge_call_args op.callArgs op.callArgs kwargs
      = .ok (op.callArgs ++ kwargs) :=
    merge_call_args_ok
      (fun kv hkv => by obtain ⟨hh, he⟩ := (hkw kv hkv).1; rw [he]; simp)
      (fun kv hkv => (hkw kv hkv).2.2.2.2.2) hnd op.callArgs
      (fun kv hkv hmem => by
        have := (hkw kv hkv).2.2.2.2.2
        rw [Bool.eq_false_iff] at this
        exact this (dictContains_iff.mpr hmem))
  have hname : dictLookup (op.callArgs ++ kwargs) "name" = none := by
    refine dictLookup_eq_none ?_
    rw [List.map_append, List.mem_append]
    rintro (hm | hm)
    · obtain ⟨kv, hkv, he⟩ := List.mem_map.mp hm
      exact (hca kv hkv).2.1 he
    · obtain ⟨kv, hkv, he⟩ := List.mem_map.mp hm
      exact (hkw kv hkv).2.1 he
  have hks : ∀ k ∈ sorted_keys ((op.callArgs ++ kwargs).map Prod.fst),
      k ≠ "name" →
      (∃ hh, dictLookup (op.callArgs ++ kwargs) k
        = some (PyVal.atom (.handle hh))) ∧
      op.schema.isTensorArgument k = true := by
    intro k hk _
    rw [mem_sorted_keys] at hk
    obtain ⟨v, hv⟩ := dictLookup_some_of_mem_keys hk
    have hmemv := dictLookup_mem hv
    have hhandle : (∃ hh, v = PyVal.atom (.handle hh)) ∧
        op.schema.isTensorArgument k = true := by
      rcases List.mem_append.mp hmemv with hm | hm
      · exact ⟨(hca (k, v) hm).1, (hca (k, v) hm).2.2⟩
      · exact ⟨(hkw (k, v) hm).1, (hkw (k, v) hm).2.2.2.2.1⟩
    obtain ⟨⟨hh, rfl⟩, htens⟩ := hhandle
    exact ⟨⟨hh, hv⟩, htens⟩
  obtain ⟨spec2, hproc⟩ := process_arg_inputs_ok hks
    ((hs.foldl (fun sp h => sp.AddInput h.name h.device)
      (add_spec_args op.spec [])))
    [] { st with counter := st.counter + 1 }
  refine ⟨spec2, ?_⟩
  rw [build_instance, convert_sc_inputs_handles, hsep]
  dsimp only
  rw [hmerge]
  dsimp only
  rw [hname]
  dsimp only
  rw [collect_handles_map hs]
  dsimp only
  rw [hproc]
  dsimp only
  rw [List.nil_append]
  by_cases hd : op.schema.isDeprecated = true
  · simp only [hd, if_true]
  · simp only [Bool.eq_false_iff.mpr hd, Bool.false_eq_true, if_false,
      List.append_nil]

/-- Claim C6 counterexample: a node can have zero outputs with the preserve
flag unset — a schema computing zero outputs on a non-preserved operator
yields a node with no outputs, no sink and no error, so "zero outputs only
when preserve is set" fails on the code. -/
theorem c6_counterexample :
    Operator.call c6op true [] [] {}
      = (.ok (.flat [],
          [{ id := 0
             relationId := 0
             name := "__S_0"
             inputs := []
             outputs := []
             spec := {} }]), { counter := 1 })
    ∧ c6op.preserve = false :=
  ⟨rfl, rfl⟩

/-- Claim C6, amended: a zero-output operator yields a node with no outputs
whether or not preserve is set (so zero outputs do not imply preserve); when
preserve is set, invoking it with no active graph context raises
`GraphRequired`, and invoking it with an active context registers exactly one
synthetic sink handle (named from the operator type and node id) while
returning no user-visible output; without preserve no sink is registered and
an empty output is returned. -/
theorem c6_zero_output_amended (op : Operator) (hsl : List DataHandle)
    (kwargs : List (String × PyVal)) (st : GraphState)
    (hz : ∀ sp, op.schema.calculateOutputs sp = 0)
    (hz2 : ∀ sp, op.schema.calculateAdditionalOutputs sp = 0)
    (hmin : op.schema.minNumInput ≤ hsl.length)
    (hmax : hsl.length ≤ op.schema.maxNumInput)
    (hca : ∀ kv ∈ op.callArgs, (∃ hh, kv.2 = PyVal.atom (.handle hh)) ∧
      kv.1 ≠ "name" ∧ op.schema.isTensorArgument kv.1 = true)
    (hkw : ∀ kv ∈ kwargs, (∃ hh, kv.2 = PyVal.atom (.handle hh)) ∧
      kv.1 ≠ "name" ∧ kv.1 ≠ "device" ∧ kv.1 ≠ "ndim" ∧
      op.schema.isTensorArgument kv.1 = true ∧
      dictContains op.callArgs kv.1 = false)
    (hnd : (kwargs.map Prod.fst).Nodup) :
    (op.preserve = true →
      (Operator.call op false (hsl.map (fun h => PyVal.atom (.handle h)))
          kwargs st).1
        = .error (.pipelineRequired "Operators with side-effects "))
    ∧ (op.preserve = true →
      ∃ inst stF, Operator.call op true
          (hsl.map (fun h => PyVal.atom (.handle h))) kwargs st
          = (.ok (.flat [], [inst]), stF)
        ∧ inst.outputs = []
        ∧ stF.sinks = st.sinks ++
            [⟨sink_name op inst, output_device op, inst.id⟩])
    ∧ (op.preserve = false → ∀ active,
      ∃ inst stF, Operator.call op active
          (hsl.map (fun h => PyVal.atom (.handle h))) kwargs st
          = (.ok (.flat [], [inst]), stF)
        ∧ inst.outputs = []
        ∧ stF.sinks = st.sinks) := by
  obtain ⟨spec2, hbuild⟩ := build_instance_ok_full hca hkw hnd hsl st
  obtain ⟨inst1, st1, hbuild2, hout, hid, hsinks⟩ :
      ∃ inst1 st1,
        build_instance op (hsl.map PyAtom.handle) kwargs st
          = (.ok inst1, st1)
        ∧ inst1.outputs = [] ∧ inst1.relationId = inst1.id
        ∧ st1.sinks = st.sinks :=
    ⟨_, _, hbuild, rfl, rfl, rfl⟩
  clear hbuild
  have hnumc : (decide ((hsl.map (fun h => PyVal.atom (.handle h))).length <
      op.schema.minNumInput) ||
      decide (op.schema.maxNumInput <
        (hsl.map (fun h => PyVal.atom (.handle h))).length)) = false := by
    rw [Bool.or_eq_false_iff]
    constructor <;> rw [decide_eq_false_iff_not] <;>
      rw [List.length_map] <;> omega
  have hprep : preprocess_inputs op.opTypeName op.device op.schema
      (hsl.map (fun h => PyVal.atom (.handle h))) 0 st
      = (.ok (hsl.map (fun h => PyVal.atom (.handle h))), st) := by
    refine preprocess_inputs_is_input ?_ _ _ _ _ _
    intro x hx
    obtain ⟨hh, _, rfl⟩ := List.mem_map.mp hx
    rfl
  have hdet : detect_multiple_input_sets
      (hsl.map (fun h => PyVal.atom (.handle h))) = false := by
    rw [Bool.eq_false_iff]
    intro hd
    obtain ⟨v, hv, hpv⟩ := List.any_eq_true.mp hd
    obtain ⟨hh, _, rfl⟩ := List.mem_map.mp hv
    cases hpv
  have hbsets : build_input_sets op.opTypeName
      (hsl.map (fun h => PyVal.atom (.handle h)))
      = .ok [hsl.map PyAtom.handle] := by
    rw [build_input_sets, if_neg (by rw [hdet]; exact Bool.false_ne_true)]
    rw [List.map_map]
    rfl
  have hnum1 : ∀ inst : OpInstance, num_output op inst = 0 := by
    intro inst
    rw [num_output, hz, hz2]
  have hcall : ∀ (active : Bool),
      Operator.call op active (hsl.map (fun h => PyVal.atom (.handle h)))
          kwargs st =
        (match generate_outputs op active inst1 st1 with
         | (.error e, s) => (.error e, s)
         | (.ok inst2, s) =>
           (.ok (unwrapped_outputs inst2.outputs,
             [{ inst2 with relationId := inst2.id }]), s)) := by
    intro active
    rw [Operator.call, if_neg (by rw [hnumc]; exact Bool.false_ne_true),
      hprep]
    dsimp only
    rw [hbsets]
    dsimp only
    rw [run_instances, hbuild2]
    dsimp only
    cases hg : generate_outputs op active inst1 st1 with
    | mk gr gs =>
      cases gr with
      | error e => rfl
      | ok inst2 =>
        dsimp only
        rw [run_instances]
        rfl
  refine ⟨?_, ?_, ?_⟩
  · intro hpres
    have hg : generate_outputs op false inst1 st1
        = (.error (.pipelineRequired "Operators with side-effects "),
           st1) := by
      rw [generate_outputs, hpres]
      rfl
    rw [hcall false, hg]
  · intro hpres
    have hgen := @generate_outputs_ok_sink op true inst1 st1
      (by rw [hpres]; rfl) (hnum1 inst1) hpres
    refine ⟨{ inst1 with relationId := inst1.id },
      { st1 with sinks := st1.sinks ++
        [⟨sink_name op inst1, output_device op, inst1.id⟩] }, ?_, ?_, ?_⟩
    · rw [hcall true, hgen]
      dsimp only
      rw [hout]
      rfl
    · exact hout
    · dsimp only
      rw [hsinks]
      rfl
  · intro hpres0 active
    have hcond : (!active && op.preserve) = false := by
      rw [hpres0]
      exact Bool.and_false _
    have hnot : (decide (num_output op inst1 = 0) && op.preserve)
        = false := by
      rw [hpres0]
      exact Bool.and_false _
    obtain ⟨spec3, hgen⟩ := @generate_outputs_ok_mint op active inst1 st1
      hcond hnot
    refine ⟨{ inst1 with
        relationId := inst1.id
        spec := spec3
        outputs := inst1.outputs ++
          minted_outputs op inst1 (num_output op inst1) },
      { st1 with
        sinks := st1.sinks ++
          (if op.preserve then
            minted_outputs op inst1 (num_output op inst1)
           else []) }, ?_, ?_, ?_⟩
    · rw [hcall active, hgen]
      dsimp only
      rw [hout, hnum1]
      rfl
    · dsimp only
      rw [hout, hnum1]
      rfl
    · dsimp only
      rw [hpres0, hsinks]
      simp

/-- Witness for C6 amended: the zero-output preserve operator `c6pres`
invoked with no inputs satisfies all three amended conclusions. -/
theorem c6_zero_output_amended_witness :
    (c6pres.preserve = true →
      (Operator.call c6pres false
          (([] : List DataHandle).map (fun h => PyVal.atom (.handle h)))
          [] {}).1
        = .error (.pipelineRequired "Operators with side-effects "))
    ∧ (c6pres.preserve = true →
      ∃ inst stF, Operator.call c6pres true
          (([] : List DataHandle).map (fun h => PyVal.atom (.handle h)))
          [] {}
          = (.ok (.flat [], [inst]), stF)
        ∧ inst.outputs = []
        ∧ stF.sinks = GraphState.sinks {} ++
            [⟨sink_name c6pres inst, output_device c6pres, inst.id⟩])
    ∧ (c6pres.preserve = false → ∀ active,
      ∃ inst stF, Operator.call c6pres active
          (([] : List DataHandle).map (fun h => PyVal.atom (.handle h)))
          [] {}
          = (.ok (.flat [], [inst]), stF)
        ∧ inst.outputs = []
        ∧ stF.sinks = GraphState.sinks {}) :=
  c6_zero_output_amended c6pres [] [] {}
    (fun _ => rfl) (fun _ => rfl) (by decide) (by decide)
    (fun kv hkv => absurd hkv (List.not_mem_nil _))
    (fun kv hkv => absurd hkv (List.not_mem_nil _))
    List.nodup_nil

theorem separate_kwargs_mem_call {kwargs : List (String × PyVal)}
    {k : String} {v : PyVal} (hm : (k, v) ∈ kwargs) (hvn : v ≠ PyVal.vNone)
    (hcs : is_call_arg k v = true) : (k, v) ∈ (separate_kwargs kwargs).2 := by
  induction kwargs with
  | nil => cases hm
  | cons kv rest ih =>
    obtain ⟨k1, v1⟩ := kv
    rw [separate_kwargs]
    cases hs : separate_kwargs rest with
    | mk initArgs callArgs =>
      dsimp only
      rcases List.mem_cons.mp hm with he | ht
      · rw [Prod.mk.injEq] at he
        obtain ⟨h1, h2⟩ := he
        subst h1
        subst h2
        rw [if_neg hvn, if_pos hcs]
        exact List.mem_cons_self _ _
      · have ihm := ih ht
        rw [hs] at ihm
        by_cases h1 : v1 = PyVal.vNone
        · rw [if_pos h1]
          exact ihm
        · rw [if_neg h1]
          by_cases h2 : is_call_arg k1 v1 = true
          · rw [if_pos h2]
            exact List.mem_cons_of_mem _ ihm
          · rw [if_neg h2]
            exact ihm

theorem separate_kwargs_drop_none (k : String) (l2 : List (String × PyVal)) :
    ∀ l1, separate_kwargs (l1 ++ (k, PyVal.vNone) :: l2)
      = separate_kwargs (l1 ++ l2) := by
  intro l1
  induction l1 with
  | nil =>
    rw [List.nil_append, List.nil_append, separate_kwargs]
    cases hs : separate_kwargs l2 with
    | mk i c =>
      dsimp only
      rw [if_pos rfl]
  | cons kv l1 ih =>
    obtain ⟨k1, v1⟩ := kv
    rw [List.cons_append, List.cons_append, separate_kwargs]
    conv_rhs => rw [separate_kwargs]
    rw [ih]

theorem build_instance_kwargs_congr {kw1 kw2 : List (String × PyVal)}
    (h : separate_kwargs kw1 = separate_kwargs kw2) (op : Operator)
    (set : List PyAtom) (st : GraphState) :
    build_instance op set kw1 st = build_instance op set kw2 st := by
  rw [build_instance]
  conv_rhs => rw [build_instance]
  rw [h]

theorem run_instances_kwargs_congr {op : Operator} {active : Bool}
    {kw1 kw2 : List (String × PyVal)}
    (h : separate_kwargs kw1 = separate_kwargs kw2) :
    ∀ (sets : List (List PyAtom)) (st : GraphState),
      run_instances op active kw1 sets st
        = run_instances op active kw2 sets st := by
  intro sets
  induction sets with
  | nil =>
    intro st
    rfl
  | cons set rest ih =>
    intro st
    rw [run_instances]
    conv_rhs => rw [run_instances]
    rw [build_instance_kwargs_congr h op set st]
    cases hb : build_instance op set kw2 st with
    | mk br bs =>
      cases br with
      | error e => rfl
      | ok inst =>
        dsimp only
        cases hg : generate_outputs op active inst bs with
        | mk gr gs =>
          cases gr with
          | error e => rfl
          | ok inst2 =>
            dsimp only
            rw [ih gs]

theorem call_kwargs_congr {kw1 kw2 : List (String × PyVal)}
    (h : separate_kwargs kw1 = separate_kwargs kw2) (op : Operator)
    (active : Bool) (inputs : List PyVal) (st : GraphState) :
    Operator.call op active inputs kw1 st
      = Operator.call op active inputs kw2 st := by
  rw [Operator.call]
  conv_rhs => rw [Operator.call]
  simp only [run_instances_kwargs_congr h]

theorem build_instance_merge_error {op : Operator}
    {kwargs : List (String × PyVal)} {e : DaliError}
    (hm : merge_call_args op.callArgs op.callArgs (separate_kwargs kwargs).2
      = .error e) (set : List PyAtom) (st : GraphState) :
    ∃ s2, build_instance op set kwargs st = (.error e, s2) := by
  rw [build_instance]
  cases hc : convert_sc_inputs (if op.device = "gpu" then "gpu" else "cpu") set
      { st with counter := st.counter + 1 } with
  | mk inputs2 st2 =>
    dsimp only
    cases hs : separate_kwargs kwargs with
    | mk specArgs callKwargs =>
      rw [hs] at hm
      dsimp only
      rw [hm]
      exact ⟨st2, rfl⟩

/-- Claim C7 counterexample: the argument `rot` is bound at construction time
(as a call-style argument) and supplied again at call time with a scalar
value, yet the call succeeds — the duplicate check only fires for call-time
values classified call-style, so a construction-style call-time value
bypasses it. -/
theorem c7_counterexample :
    dictContains c7op.callArgs "rot" = true
    ∧ Operator.call c7op true [] [("rot", PyVal.atom (.scalar 5))] {}
      = (.ok (.single ⟨"__Op_0", "cpu", 0⟩,
          [{ id := 0
             relationId := 0
             name := "__Op_0"
             inputs := [⟨"q", "cpu", 0⟩]
             outputs := [⟨"__Op_0", "cpu", 0⟩]
             spec := { args := [("rot", PyVal.atom (.scalar 5))]
                       argumentInputs := [("rot", "q")]
                       outputs := [("__Op_0", "cpu")] } }]),
        { counter := 1 }) :=
  ⟨rfl, rfl⟩

/-- Claim C7, amended: supplying an argument name at construction time and
again at call time raises the duplicate-argument `ValueError` provided the
call-time value is classified call-style; and a call-time argument with value
`None` behaves exactly as if it were omitted. -/
theorem c7_amended (op : Operator) (hsl : List DataHandle)
    (kwargs : List (String × PyVal)) (st : GraphState) (active : Bool)
    (hmin : op.schema.minNumInput ≤ hsl.length)
    (hmax : hsl.length ≤ op.schema.maxNumInput) :
    ((∃ kv ∈ kwargs, kv.2 ≠ PyVal.vNone ∧ is_call_arg kv.1 kv.2 = true ∧
        dictContains op.callArgs kv.1 = true) →
      ∃ k2, dictContains op.callArgs k2 = true ∧
        (Operator.call op active (hsl.map (fun h => PyVal.atom (.handle h)))
            kwargs st).1
          = .error (.valueError (duplicate_arg_msg k2)))
    ∧ (∀ (inputs : List PyVal) (l1 l2 : List (String × PyVal)) (k : String),
        Operator.call op active inputs (l1 ++ (k, PyVal.vNone) :: l2) st
          = Operator.call op active inputs (l1 ++ l2) st) := by
  constructor
  · rintro ⟨⟨k, v⟩, hm, hvn, hcs, hdup⟩
    have hmem : (k, v) ∈ (separate_kwargs kwargs).2 :=
      separate_kwargs_mem_call hm hvn hcs
    obtain ⟨k2, hk2, hmerge⟩ := merge_call_args_error (separate_kwargs kwargs).2
      ⟨(k, v), hmem, hvn, hdup⟩ op.callArgs
    obtain ⟨s2, hbi⟩ := build_instance_merge_error hmerge
      (hsl.map PyAtom.handle) st
    have hnumc : (decide ((hsl.map (fun h => PyVal.atom (.handle h))).length <
        op.schema.minNumInput) ||
        decide (op.schema.maxNumInput <
          (hsl.map (fun h => PyVal.atom (.handle h))).length)) = false := by
      rw [Bool.or_eq_false_iff]
      constructor <;> rw [decide_eq_false_iff_not] <;>
        rw [List.length_map] <;> omega
    have hprep : preprocess_inputs op.opTypeName op.device op.schema
        (hsl.map (fun h => PyVal.atom (.handle h))) 0 st
        = (.ok (hsl.map (fun h => PyVal.atom (.handle h))), st) := by
      refine preprocess_inputs_is_input ?_ _ _ _ _ _
      intro x hx
      obtain ⟨hh, _, rfl⟩ := List.mem_map.mp hx
      rfl
    have hdet : detect_multiple_input_sets
        (hsl.map (fun h => PyVal.atom (.handle h))) = false := by
      rw [Bool.eq_false_iff]
      intro hd
      obtain ⟨w, hw, hpw⟩ := List.any_eq_true.mp hd
      obtain ⟨hh, _, rfl⟩ := List.mem_map.mp hw
      cases hpw
    have hbsets : build_input_sets op.opTypeName
        (hsl.map (fun h => PyVal.atom (.handle h)))
        = .ok [hsl.map PyAtom.handle] := by
      rw [build_input_sets, if_neg (by rw [hdet]; exact Bool.false_ne_true)]
      rw [List.map_map]
      rfl
    refine ⟨k2, hk2, ?_⟩
    rw [Operator.call, if_neg (by rw [hnumc]; exact Bool.false_ne_true),
      hprep]
    dsimp only
    rw [hbsets]
    dsimp only
    rw [run_instances, hbi]
  · intro inputs l1 l2 k
    exact call_kwargs_congr (separate_kwargs_drop_none k l2 l1) op active
      inputs st

/-- Witness for C7 amended: on `c7op`, a call-style handle value for the
bound name `rot` raises the duplicate error, and a `None`-valued call-time
argument is dropped. -/
theorem c7_amended_witness :
    (∃ k2, dictContains c7op.callArgs k2 = true ∧
      (Operator.call c7op true
          (([] : List DataHandle).map (fun h => PyVal.atom (.handle h)))
          [("rot", PyVal.atom (.handle (exH "p")))] {}).1
        = .error (.valueError (duplicate_arg_msg k2)))
    ∧ (Operator.call c7op true []
          ([("rot2", PyVal.atom (.scalar 1))] ++ ("pad", PyVal.vNone) :: [])
          {}
        = Operator.call c7op true []
          ([("rot2", PyVal.atom (.scalar 1))] ++ []) {}) :=
  have h := c7_amended c7op [] [("rot", PyVal.atom (.handle (exH "p")))] {}
    true (by decide) (by decide)
  ⟨h.1 ⟨("rot", PyVal.atom (.handle (exH "p"))), List.mem_cons_self _ _,
      by decide, by decide, by decide⟩,
   h.2 [] [("rot2", PyVal.atom (.scalar 1))] [] "pad"⟩

theorem foldl_max_le {c : Nat} : ∀ {l : List Nat} {init : Nat},
    (∀ a ∈ l, a ≤ c) → init ≤ c → l.foldl max init ≤ c := by
  intro l
  induction l with
  | nil =>
    intro init _ h
    exact h
  | cons x xs ih =>
    intro init hall hinit
    exact ih (fun a ha => hall a (List.mem_cons_of_mem _ ha))
      (Nat.max_le.mpr ⟨hinit, hall x (List.mem_cons_self _ _)⟩)

theorem forall₂_mem_right {α β : Type} {R : α → β → Prop} :
    ∀ {l1 : List α} {l2 : List β}, List.Forall₂ R l1 l2 →
    ∀ b ∈ l2, ∃ a ∈ l1, R a b := by
  intro l1 l2 h
  induction h with
  | nil =>
    intro b hb
    cases hb
  | cons hr hrest ih =>
    intro b hb
    rcases List.mem_cons.mp hb with rfl | hb
    · exact ⟨_, List.mem_cons_self _ _, hr⟩
    · obtain ⟨a, ha, har⟩ := ih b hb
      exact ⟨a, List.mem_cons_of_mem _ ha, har⟩

theorem dictLookup_append_right {k : String} :
    ∀ {l1 : List (String × PyVal)}, dictContains l1 k = false →
    ∀ l2, dictLookup (l1 ++ l2) k = dictLookup l2 k := by
  intro l1
  induction l1 with
  | nil =>
    intro _ l2
    rfl
  | cons kv rest ih =>
    intro hc l2
    obtain ⟨k1, v1⟩ := kv
    rw [dictContains, List.any_cons, Bool.or_eq_false_iff] at hc
    rw [List.cons_append, dictLookup,
      if_neg (by intro he; rw [he] at hc; simpa using hc.1)]
    exact ih hc.2 l2

theorem generate_outputs_true_ok (op : Operator) (inst : OpInstance)
    (st : GraphState) :
    ∃ inst2 st2, generate_outputs op true inst st = (.ok inst2, st2) := by
  rw [generate_outputs,
    if_neg (show ¬((!true && op.preserve) = true) from
      fun hx => Bool.false_ne_true hx)]
  dsimp only
  by_cases hz : (decide (num_output op inst = 0) && op.preserve) = true
  · rw [if_pos hz]
    exact ⟨_, _, rfl⟩
  · rw [if_neg hz]
    cases hf : List.foldl (mint_step op (num_output op inst)) (inst, st)
        (List.range (num_output op inst)) with
    | mk a b =>
      exact ⟨a, b, rfl⟩

theorem run_instances_inputs {op : Operator} {kwargs : List (String × PyVal)}
    (hca : ∀ kv ∈ op.callArgs, (∃ hh, kv.2 = PyVal.atom (.handle hh)) ∧
      kv.1 ≠ "name" ∧ op.schema.isTensorArgument kv.1 = true)
    (hkw : ∀ kv ∈ kwargs, (∃ hh, kv.2 = PyVal.atom (.handle hh)) ∧
      kv.1 ≠ "name" ∧ kv.1 ≠ "device" ∧ kv.1 ≠ "ndim" ∧
      op.schema.isTensorArgument kv.1 = true ∧
      dictContains op.callArgs kv.1 = false)
    (hnd : (kwargs.map Prod.fst).Nodup) :
    ∀ (hss : List (List DataHandle)) (st : GraphState),
    ∃ insts st2,
      run_instances op true kwargs (hss.map (fun hs => hs.map PyAtom.handle)) st
        = (.ok insts, st2)
      ∧ List.Forall₂ (fun (hs : List DataHandle) (inst : OpInstance) =>
          inst.inputs = hs ++ arg_input_handles (op.callArgs ++ kwargs)
            (sorted_keys ((op.callArgs ++ kwargs).map Prod.fst))) hss insts := by
  intro hss
  induction hss with
  | nil =>
    intro st
    exact ⟨[], st, rfl, List.Forall₂.nil⟩
  | cons hs rest ih =>
    intro st
    obtain ⟨spec2, hbuild⟩ := build_instance_ok_full hca hkw hnd hs st
    obtain ⟨inst1, st1, hbuild2, hinps⟩ :
        ∃ inst1 st1,
          build_instance op (hs.map PyAtom.handle) kwargs st
            = (.ok inst1, st1)
          ∧ inst1.inputs = hs ++ arg_input_handles (op.callArgs ++ kwargs)
              (sorted_keys ((op.callArgs ++ kwargs).map Prod.fst)) :=
      ⟨_, _, hbuild, rfl⟩
    obtain ⟨inst2, stg, hgen⟩ := generate_outputs_true_ok op inst1 st1
    have hshape := generate_outputs_ok_shape hgen
    obtain ⟨insts, st2, hrun, hfa⟩ := ih stg
    refine ⟨inst2 :: insts, st2, ?_, ?_⟩
    · rw [List.map_cons, run_instances, hbuild2]
      dsimp only
      rw [hgen]
      dsimp only
      rw [hrun]
    · exact List.Forall₂.cons (by rw [hshape.2.2.2.1, hinps]) hfa

/-- Claim C1: a call whose positional inputs are handles and fan-out lists of
exactly three handles (with at least one such list) creates exactly three
nodes, all sharing one relation id equal to the first node's id; every
non-fan-out positional handle is replicated so that each node receives the
very same handle at the same input position, and every keyword argument-input
handle appears identically in every node's inputs. -/
theorem c1_fanout_replication (op : Operator) (inputs : List PyVal)
    (kwargs : List (String × PyVal)) (st : GraphState)
    (hin : ∀ v ∈ inputs, (∃ hh, v = PyVal.atom (.handle hh)) ∨
      (∃ a b c, v = PyVal.pylist [.handle a, .handle b, .handle c]))
    (hfan : ∃ v ∈ inputs, ∃ a b c,
      v = PyVal.pylist [.handle a, .handle b, .handle c])
    (hmin : op.schema.minNumInput ≤ inputs.length)
    (hmax : inputs.length ≤ op.schema.maxNumInput)
    (hca : ∀ kv ∈ op.callArgs, (∃ hh, kv.2 = PyVal.atom (.handle hh)) ∧
      kv.1 ≠ "name" ∧ op.schema.isTensorArgument kv.1 = true)
    (hkw : ∀ kv ∈ kwargs, (∃ hh, kv.2 = PyVal.atom (.handle hh)) ∧
      kv.1 ≠ "name" ∧ kv.1 ≠ "device" ∧ kv.1 ≠ "ndim" ∧
      op.schema.isTensorArgument kv.1 = true ∧
      dictContains op.callArgs kv.1 = false)
    (hnd : (kwargs.map Prod.fst).Nodup) :
    ∃ res insts st2,
      Operator.call op true inputs kwargs st = (.ok (res, insts), st2)
      ∧ insts.length = 3
      ∧ (∀ i ∈ insts, i.relationId = (insts.headD default).id)
      ∧ (∀ n hh, inputs.get? n = some (PyVal.atom (.handle hh)) →
          ∀ i ∈ insts, i.inputs.get? n = some hh)
      ∧ (∀ k hh, (k, PyVal.atom (.handle hh)) ∈ kwargs →
          ∀ i ∈ insts, hh ∈ i.inputs) := by
  have hne : inputs ≠ [] := by
    rintro rfl
    obtain ⟨v, hv, _⟩ := hfan
    cases hv
  obtain ⟨i0, irest, hI⟩ := List.exists_cons_of_ne_nil hne
  have hhead : ((unify_lists inputs 3).headD []).length = 3 := by
    rw [hI]
    rcases hin i0 (by rw [hI]; exact List.mem_cons_self _ _) with
      ⟨hh, rfl⟩ | ⟨a, b, c, rfl⟩
    · rfl
    · rfl
  have hfi : ∀ i : Nat, i = 0 ∨ i = 1 ∨ i = 2 →
      (unify_lists inputs 3).map (fun s => s.getD i default)
        = (inputs.map (fan_pick i)).map PyAtom.handle := by
    intro i hi
    rw [unify_lists, List.map_map, List.map_map]
    refine List.map_congr_left ?_
    intro v hv
    rcases hin v hv with ⟨hh, rfl⟩ | ⟨a, b, c, rfl⟩
    · rcases hi with rfl | rfl | rfl <;> rfl
    · rcases hi with rfl | rfl | rfl <;> rfl
  have hfold : (inputs.map safe_len).foldl max 0 = 3 := by
    refine Nat.le_antisymm ?_ ?_
    · refine foldl_max_le ?_ (by omega)
      intro a ha
      obtain ⟨v, hv, rfl⟩ := List.mem_map.mp ha
      rcases hin v hv with ⟨hh, rfl⟩ | ⟨x, y, z, rfl⟩
      · exact (by omega : (1 : Nat) ≤ 3)
      · exact Nat.le_refl 3
    · obtain ⟨v, hv, a, b, c, rfl⟩ := hfan
      have h3 : (3 : Nat) ∈ inputs.map safe_len :=
        List.mem_map.mpr ⟨_, hv, rfl⟩
      exact mem_le_foldl_max h3 0
  have hccl : check_common_length op.opTypeName inputs = .ok 3 := by
    rw [check_common_length]
    rw [hfold]
    rw [if_neg ?hany]
    case hany =>
      intro hx
      obtain ⟨v, hv, hp⟩ := List.any_eq_true.mp hx
      rcases hin v hv with ⟨hh, rfl⟩ | ⟨a, b, c, rfl⟩
      · exact Bool.false_ne_true hp
      · exact Bool.false_ne_true hp
  have hdet : detect_multiple_input_sets inputs = true := by
    obtain ⟨v, hv, a, b, c, rfl⟩ := hfan
    exact List.any_eq_true.mpr ⟨_, hv, rfl⟩
  have hrp : repack_list (unify_lists inputs 3) =
      [(inputs.map (fan_pick 0)).map PyAtom.handle,
       (inputs.map (fan_pick 1)).map PyAtom.handle,
       (inputs.map (fan_pick 2)).map PyAtom.handle] := by
    rw [repack_list]
    rw [hhead]
    rw [show List.range 3 = [0, 1, 2] from rfl]
    rw [List.map_cons, List.map_cons, List.map_cons, List.map_nil]
    rw [hfi 0 (Or.inl rfl), hfi 1 (Or.inr (Or.inl rfl)),
      hfi 2 (Or.inr (Or.inr rfl))]
  have hbs : build_input_sets op.opTypeName inputs
      = .ok [(inputs.map (fan_pick 0)).map PyAtom.handle,
             (inputs.map (fan_pick 1)).map PyAtom.handle,
             (inputs.map (fan_pick 2)).map PyAtom.handle] := by
    rw [build_input_sets, if_pos hdet, hccl]
    dsimp only
    rw [hrp]
  have hnumc : (decide (inputs.length < op.schema.minNumInput) ||
      decide (op.schema.maxNumInput < inputs.length)) = false := by
    rw [Bool.or_eq_false_iff]
    constructor <;> rw [decide_eq_false_iff_not] <;> omega
  have hprep : preprocess_inputs op.opTypeName op.device op.schema inputs 0 st
      = (.ok inputs, st) := by
    refine preprocess_inputs_is_input ?_ _ _ _ _ _
    intro x hx
    rcases hin x hx with ⟨hh, rfl⟩ | ⟨a, b, c, rfl⟩ <;> rfl
  obtain ⟨insts, st2, hrun, hfa⟩ := run_instances_inputs hca hkw hnd
    [inputs.map (fan_pick 0), inputs.map (fan_pick 1),
     inputs.map (fan_pick 2)] st
  simp only [List.map_cons, List.map_nil] at hrun
  have hlen : insts.length = 3 := by
    have h3 := List.Forall₂.length_eq hfa
    simpa using h3.symm
  refine ⟨if (insts.map (fun i : OpInstance =>
        { i with relationId := (insts.headD default).id })).length = 1
      then unwrapped_outputs ((insts.map (fun i : OpInstance =>
        { i with relationId := (insts.headD default).id })).headD
          default).outputs
      else repack_output_sets ((insts.map (fun i : OpInstance =>
        { i with relationId := (insts.headD default).id })).map (·.outputs)),
    insts.map (fun i : OpInstance =>
      { i with relationId := (insts.headD default).id }),
    st2, ?_, ?_, ?_, ?_, ?_⟩
  · rw [Operator.call, if_neg (by rw [hnumc]; exact Bool.false_ne_true),
      hprep]
    dsimp only
    rw [hbs]
    dsimp only
    rw [hrun]
  · simp [hlen]
  · intro i hi
    obtain ⟨j, hj, rfl⟩ := List.mem_map.mp hi
    cases insts with
    | nil => simp at hlen
    | cons j0 jrest => rfl
  · intro n hh hgetn i hi
    obtain ⟨j, hj, rfl⟩ := List.mem_map.mp hi
    obtain ⟨p, hp, hjp⟩ := forall₂_mem_right hfa j hj
    have hex : ∃ m : Nat, p = inputs.map (fan_pick m) := by
      rcases List.mem_cons.mp hp with rfl | hp
      · exact ⟨0, rfl⟩
      rcases List.mem_cons.mp hp with rfl | hp
      · exact ⟨1, rfl⟩
      rcases List.mem_cons.mp hp with rfl | hp
      · exact ⟨2, rfl⟩
      cases hp
    obtain ⟨m, rfl⟩ := hex
    obtain ⟨hlt, _⟩ := List.get?_eq_some.mp hgetn
    show j.inputs.get? n = some hh
    rw [hjp, List.get?_append (by rw [List.length_map]; exact hlt)]
    rw [List.get?_map, hgetn]
    rfl
  · intro k hh hkv i hi
    obtain ⟨j, hj, rfl⟩ := List.mem_map.mp hi
    obtain ⟨p, hp, hjp⟩ := forall₂_mem_right hfa j hj
    show hh ∈ j.inputs
    rw [hjp]
    refine List.mem_append_right _ ?_
    obtain ⟨⟨hh2, hv2⟩, hkn, hkd, hknd, _, hkc⟩ :=
      hkw (k, PyVal.atom (.handle hh)) hkv
    have hks : k ∈ sorted_keys ((op.callArgs ++ kwargs).map Prod.fst) :=
      mem_sorted_keys.mpr (List.mem_map.mpr
        ⟨(k, PyVal.atom (.handle hh)), List.mem_append_right _ hkv, rfl⟩)
    have hlook : dictLookup (op.callArgs ++ kwargs) k
        = some (PyVal.atom (.handle hh)) := by
      rw [dictLookup_append_right hkc]
      exact dictLookup_of_mem_nodup hnd hkv
    rw [arg_input_handles]
    refine List.mem_filterMap.mpr ⟨k, hks, ?_⟩
    rw [if_neg hkn, hlook]

/-- Witness for C1: a fan-out list of three handles alongside a bare handle
and one keyword argument-input handle on `exOp`. -/
theorem c1_fanout_replication_witness :
    ∃ res insts st2,
      Operator.call exOp true
        [PyVal.pylist [.handle (exH "a"), .handle (exH "b"),
           .handle (exH "c")],
         PyVal.atom (.handle (exH "d"))]
        [("rot", PyVal.atom (.handle (exH "k")))] {}
        = (.ok (res, insts), st2)
      ∧ insts.length = 3
      ∧ (∀ i ∈ insts, i.relationId = (insts.headD default).id)
      ∧ (∀ n hh,
          [PyVal.pylist [.handle (exH "a"), .handle (exH "b"),
             .handle (exH "c")],
           PyVal.atom (.handle (exH "d"))].get? n
            = some (PyVal.atom (.handle hh)) →
          ∀ i ∈ insts, i.inputs.get? n = some hh)
      ∧ (∀ k hh,
          (k, PyVal.atom (.handle hh)) ∈
            [("rot", PyVal.atom (.handle (exH "k")))] →
          ∀ i ∈ insts, hh ∈ i.inputs) :=
  c1_fanout_replication exOp _ _ {}
    (by
      intro v hv
      rcases List.mem_cons.mp hv with rfl | hv
      · exact Or.inr ⟨exH "a", exH "b", exH "c", rfl⟩
      rcases List.mem_cons.mp hv with rfl | hv
      · exact Or.inl ⟨exH "d", rfl⟩
      · cases hv)
    ⟨_, List.mem_cons_self _ _, exH "a", exH "b", exH "c", rfl⟩
    (by decide) (by decide)
    (fun kv hkv => absurd hkv (List.not_mem_nil _))
    (by
      intro kv hkv
      rcases List.mem_cons.mp hkv with rfl | hkv
      · exact ⟨⟨exH "k", rfl⟩, by decide, by decide, by decide, rfl, rfl⟩
      · cases hkv)
    (by decide)

end DaliOps
